import Mathlib

/-!
Verification of the xrvis state-synchronization layer (robotics-erlangen/xrvis).

This file shallowly embeds the jitter-buffer / state-filter core
(sslgame/src/state_filter.rs, sslgame/src/world_state_filter.rs), the
visualization tracker (sslgame/src/visualization_tracker.rs), the host
discovery deduplication step (src/sslgame/network_tasks.rs) and the
multicast bind loop (src/sslgame/ssm_socket.rs), and proves the spec's
testable properties about them.

Modelling conventions:
- Machine integers are Nat/Int; u64/i64 casts that can overflow are made
  explicit with wrapU64/toI64 (reduction mod 2^64).
- f32 arithmetic is modelled exactly over the rationals; the f32 constant
  PI is the exact rational value of std::f32::consts::PI.
- Instants are microseconds since the filter's time_reference, so the
  caller-supplied argument now plays the role of Instant::now().
- Panics (Option::unwrap, unreachable!) are modelled by returning none.
- The protobuf payload schemas are not part of the sources; the record
  types below carry exactly the fields the Rust code reads or writes.
-/

/-- 2^64, the modulus of u64 arithmetic. -/
def U64MOD : Nat := 18446744073709551616

/-- i64::MAX, the sentinel stored in min_buffer_health. -/
def I64MAX : Int := 9223372036854775807

/-- Cast of an integer to u64 (as u64 in Rust), i.e. reduction mod 2^64. -/
def wrapU64 (i : Int) : Nat := (i % (U64MOD : Int)).toNat

/-- Cast of a u64 value to i64 (as i64 in Rust): two's-complement reinterpretation. -/
def toI64 (n : Nat) : Int :=
  ((n : Int) + 9223372036854775808) % (U64MOD : Int) - 9223372036854775808

/-- f32::rem_euclid on the exact rational model: a - b * floor (a / b). -/
def ratRemEuclid (a b : ℚ) : ℚ := a - b * (⌊a / b⌋ : ℤ)

/-- The exact rational value of the f32 constant std::f32::consts::PI
(bit pattern 0x40490FDB, i.e. 13176795 * 2^-22). -/
def pi32 : ℚ := 13176795 / 4194304

/- ======== Wire payload data model (fields used by the sources) ======== -/

/-- proto TeamInfo: team name record referenced by Status::yellow_team/blue_team. -/
structure TeamInfo where
  name : String
deriving DecidableEq

/-- proto visualization group tag: (group, group_count) shard coordinates. -/
structure VisGroup where
  group : Nat
  group_count : Nat
deriving DecidableEq

/-- proto 2-d point used by polygon/path visualization parts. -/
structure Point2 where
  x : ℚ
  y : ℚ
deriving DecidableEq

/-- proto circle visualization part (fields touched by remapping). -/
structure VisCircle where
  p_x : ℚ
  p_y : ℚ
deriving DecidableEq

/-- proto vis_part::Geom oneof. -/
inductive VisGeom where
  | circle (c : VisCircle)
  | polygon (point : List Point2)
  | path (point : List Point2)
deriving DecidableEq

/-- proto VisPart: optional geometry payload. -/
structure VisPart where
  geom : Option VisGeom
deriving DecidableEq

/-- proto Visualization: a list of parts. -/
structure Visualization where
  part : List VisPart
deriving DecidableEq

/-- proto Robot pose sample. -/
structure Robot where
  id : Nat
  p_x : ℚ
  p_y : ℚ
  phi : ℚ
deriving DecidableEq

/-- proto Ball sample (p_z is optional on the wire). -/
structure Ball where
  p_x : ℚ
  p_y : ℚ
  p_z : Option ℚ
deriving DecidableEq

/-- proto WorldState (status_streaming variant: repeated ball). -/
structure WorldState where
  ball : List Ball
  yellow_robot : List Robot
  blue_robot : List Robot
deriving DecidableEq

/-- WorldState::default(). -/
def defaultWorldState : WorldState := ⟨[], [], []⟩

/-- proto field geometry record (fields read by current_field_geometry). -/
structure GeometryData where
  field_size_x : ℚ
  field_size_y : ℚ
  boundary_width : Option ℚ
  defense_size_x : ℚ
  defense_size_y : ℚ
  goal_width : ℚ
deriving DecidableEq

/-- proto status_streaming::Status: the decoded telemetry snapshot. -/
structure Status where
  timestamp : Option Nat
  world_state : Option WorldState
  field_geometry : Option GeometryData
  yellow_team : Option TeamInfo
  blue_team : Option TeamInfo
  visualization : List Visualization
  visualization_group : Option VisGroup
deriving DecidableEq

/- ======== Coordinate remapping (state_filter.rs::remap_coordinates) ======== -/

/-- Vision-to-bevy remap of a visualization list: negate the y coordinate of
every circle, polygon point and path point. -/
def remapVisualizationList (vis : List Visualization) : List Visualization :=
  vis.map (fun v =>
    { v with part := v.part.map (fun p =>
        { p with geom := p.geom.map (fun g =>
            match g with
            | .circle c => .circle { c with p_y := -c.p_y }
            | .polygon pts => .polygon (pts.map (fun pt => { pt with y := -pt.y }))
            | .path pts => .path (pts.map (fun pt => { pt with y := -pt.y })) ) }) })

/-- Vision-to-bevy remap of a world state: negate ball and robot p_y and turn
robot headings by -PI/2. -/
def remapWorldStateData (w : WorldState) : WorldState :=
  { ball := w.ball.map (fun b => { b with p_y := -b.p_y })
    yellow_robot := w.yellow_robot.map (fun r => { r with p_y := -r.p_y, phi := r.phi - pi32 / 2 })
    blue_robot := w.blue_robot.map (fun r => { r with p_y := -r.p_y, phi := r.phi - pi32 / 2 }) }

/-- state_filter.rs::remap_coordinates applied to a whole Status. -/
def remap_coordinates (status : Status) : Status :=
  { status with
    world_state := status.world_state.map remapWorldStateData
    visualization := remapVisualizationList status.visualization }

/- ======== StateFilter (sslgame/src/state_filter.rs) ======== -/

/-- TARGET_BUFFER_TIME = Duration::from_millis(10), in microseconds. -/
def TARGET_BUFFER_TIME : Nat := 10000

/-- BufferHealthTracker: minimum observed remaining buffer time (i64, with
i64::MAX as the unset sentinel), stutter counter, and the next adaptation
instant (microseconds since time_reference). -/
structure BufferHealthTracker where
  min_buffer_health : Int
  stutter_count : Nat
  scheduled_time : Nat
deriving DecidableEq

/-- StateFilter: packet history (local timestamp, remapped status) newest
first, clock offset estimate, health tracking period (microseconds), and the
optional health tracker. -/
structure StateFilter where
  packet_history : List (Nat × Status)
  time_offset : Option Int
  health_tracking_period : Nat
  buffer_health_tracker : Option BufferHealthTracker
deriving DecidableEq

/-- StateFilter::default(): empty history, no offset, 10 s tracking period,
no tracker. -/
def StateFilter.init : StateFilter := ⟨[], none, 10000000, none⟩

/-- First block of push_packet: on the first packet, establish
time_offset = current - sender timestamp and schedule the first health
check 1 s ahead. -/
def StateFilter.applyInitialOffset (s : StateFilter) (now current ts : Nat) : StateFilter :=
  match s.time_offset with
  | none =>
    { s with
      time_offset := some (toI64 current - toI64 ts)
      buffer_health_tracker := some ⟨I64MAX, 0, now + 1000000⟩ }
  | some _ => s

/-- Second block of push_packet: if the scheduled health check has passed,
at least one sample was recorded, and the buffer margin or stutter count
breached its threshold, shift the offset by (TARGET_BUFFER_TIME - min) and
reset the tracker for the next period. -/
def StateFilter.applyOffsetAdjustment (s : StateFilter) (now : Nat) : StateFilter :=
  match s.buffer_health_tracker with
  | some tr =>
    if tr.scheduled_time < now ∧ tr.min_buffer_health ≠ I64MAX ∧
        (tr.min_buffer_health > (TARGET_BUFFER_TIME : Int) * 2 ∨
          tr.stutter_count > s.health_tracking_period / 1000000 / 5) then
      { s with
        time_offset := s.time_offset.map
          (fun o => o + ((TARGET_BUFFER_TIME : Int) - tr.min_buffer_health))
        buffer_health_tracker := some ⟨I64MAX, 0, now + s.health_tracking_period⟩ }
    else s
  | none => s

/-- Third block of push_packet: compute the local timestamp
(sender timestamp + offset, cast to u64), insert at the position given by a
front scan over strictly greater timestamps, then truncate to the prefix
still inside the 1 s retention window. Returns none when time_offset is
absent (the unwrap would panic). -/
def StateFilter.insertAndPurge (s : StateFilter) (current ts : Nat) (status2 : Status) :
    Option StateFilter :=
  match s.time_offset with
  | none => none
  | some off =>
    let new_timestamp : Nat := wrapU64 (toI64 ts + off)
    let insert_index :=
      (s.packet_history.takeWhile (fun e => decide (new_timestamp < e.1))).length
    let inserted := s.packet_history.insertIdx insert_index (new_timestamp, status2)
    let kept := inserted.takeWhile (fun e => decide (current < wrapU64 ((e.1 : Int) + 1000000)))
    some { s with packet_history := kept }

/-- StateFilter::push_packet. The argument now is Instant::now() expressed
as microseconds since time_reference, so current_timestamp = now. Returns
none when status.timestamp is absent (the unwrap would panic). -/
def StateFilter.push_packet (s : StateFilter) (now : Nat) (status : Status) :
    Option StateFilter :=
  match status.timestamp with
  | none => none
  | some ts =>
    let current : Nat := now
    let s1 := s.applyInitialOffset now current ts
    let s2 := s1.applyOffsetAdjustment now
    let status2 := remap_coordinates status
    s2.insertAndPurge current ts status2

/-- Sequencing of push_packet calls; none as soon as one call panics. -/
def StateFilter.run_push (s : StateFilter) : List (Nat × Status) → Option StateFilter
  | [] => some s
  | (now, st) :: rest =>
    match s.push_packet now st with
    | none => none
    | some s' => s'.run_push rest

/- ======== Helper lemmas about push_packet ======== -/

theorem applyInitialOffset_history (s : StateFilter) (now cur ts : Nat) :
    (s.applyInitialOffset now cur ts).packet_history = s.packet_history := by
  unfold StateFilter.applyInitialOffset
  cases s.time_offset <;> rfl

theorem applyOffsetAdjustment_history (s : StateFilter) (now : Nat) :
    (s.applyOffsetAdjustment now).packet_history = s.packet_history := by
  unfold StateFilter.applyOffsetAdjustment
  cases s.buffer_health_tracker with
  | none => rfl
  | some tr => dsimp only; split <;> rfl

theorem applyInitialOffset_offset_isSome (s : StateFilter) (now cur ts : Nat) :
    (s.applyInitialOffset now cur ts).time_offset.isSome := by
  unfold StateFilter.applyInitialOffset
  cases ho : s.time_offset <;> simp [ho]

theorem applyOffsetAdjustment_offset_isSome (s : StateFilter) (now : Nat)
    (h : s.time_offset.isSome) : (s.applyOffsetAdjustment now).time_offset.isSome := by
  unfold StateFilter.applyOffsetAdjustment
  cases htr : s.buffer_health_tracker with
  | none => exact h
  | some tr =>
    dsimp only
    split
    · cases ho : s.time_offset with
      | none => rw [ho] at h; simp at h
      | some o => simp [ho]
    · exact h

/-- Unfolding equation for insertAndPurge when the clock offset is set. -/
theorem insertAndPurge_eq_some (s : StateFilter) (current ts : Nat) (st2 : Status)
    (off : Int) (ho : s.time_offset = some off) :
    s.insertAndPurge current ts st2 = some { s with packet_history :=
      ((s.packet_history.insertIdx
          ((s.packet_history.takeWhile
            (fun e => decide (wrapU64 (toI64 ts + off) < e.1))).length)
          (wrapU64 (toI64 ts + off), st2)).takeWhile
        (fun e => decide (current < wrapU64 ((e.1 : Int) + 1000000)))) } := by
  unfold StateFilter.insertAndPurge
  rw [ho]

/-- Unfolding equation for insertAndPurge when the clock offset is absent. -/
theorem insertAndPurge_eq_none (s : StateFilter) (current ts : Nat) (st2 : Status)
    (ho : s.time_offset = none) : s.insertAndPurge current ts st2 = none := by
  unfold StateFilter.insertAndPurge
  rw [ho]

/-- Unfolding equation for push_packet when the snapshot has a timestamp. -/
theorem push_packet_eq (s : StateFilter) (now : Nat) (st : Status) (ts : Nat)
    (hts : st.timestamp = some ts) :
    s.push_packet now st =
      ((s.applyInitialOffset now now ts).applyOffsetAdjustment now).insertAndPurge
        now ts (remap_coordinates st) := by
  unfold StateFilter.push_packet
  rw [hts]

/-- Unfolding equation for push_packet when the snapshot has no timestamp. -/
theorem push_packet_eq_none (s : StateFilter) (now : Nat) (st : Status)
    (hts : st.timestamp = none) : s.push_packet now st = none := by
  unfold StateFilter.push_packet
  rw [hts]

/-- The sort order of the packet history: non-increasing local timestamps. -/
def HistSorted (h : List (Nat × Status)) : Prop :=
  h.Pairwise (fun a b => b.1 ≤ a.1)

theorem sorted_takeWhile {h : List (Nat × Status)} (p : Nat × Status → Bool)
    (hs : HistSorted h) : HistSorted (h.takeWhile p) :=
  hs.sublist (List.takeWhile_sublist p)

theorem sorted_insertIdx_takeWhile (x : Nat × Status) :
    ∀ (h : List (Nat × Status)), HistSorted h →
      HistSorted (h.insertIdx (h.takeWhile (fun e => decide (x.1 < e.1))).length x) := by
  intro h
  induction h with
  | nil => intro _; simp [HistSorted]
  | cons a t ih =>
    intro hs
    rw [HistSorted, List.pairwise_cons] at hs
    obtain ⟨ha, ht⟩ := hs
    by_cases hx : x.1 < a.1
    · rw [List.takeWhile_cons_of_pos (by simpa using hx)]
      simp only [List.length_cons, List.insertIdx_succ_cons]
      rw [HistSorted, List.pairwise_cons]
      constructor
      · intro y hy
        rcases (List.mem_insertIdx
            ((List.takeWhile_sublist _).length_le)).mp hy with rfl | hmem
        · exact Nat.le_of_lt hx
        · exact ha y hmem
      · exact ih ht
    · rw [List.takeWhile_cons_of_neg (by simpa using hx)]
      simp only [List.length_nil, List.insertIdx_zero]
      rw [HistSorted, List.pairwise_cons]
      refine ⟨?_, List.pairwise_cons.mpr ⟨ha, ht⟩⟩
      intro y hy
      rcases List.mem_cons.mp hy with rfl | hmem
      · exact Nat.le_of_not_lt hx
      · exact Nat.le_trans (ha y hmem) (Nat.le_of_not_lt hx)

theorem insertAndPurge_history {s : StateFilter} {current ts : Nat} {st2 : Status}
    {s' : StateFilter} {off : Int} (ho : s.time_offset = some off)
    (h : s.insertAndPurge current ts st2 = some s') :
    s'.packet_history =
      ((s.packet_history.insertIdx
          ((s.packet_history.takeWhile
            (fun e => decide (wrapU64 (toI64 ts + off) < e.1))).length)
          (wrapU64 (toI64 ts + off), st2)).takeWhile
        (fun e => decide (current < wrapU64 ((e.1 : Int) + 1000000)))) := by
  rw [insertAndPurge_eq_some s current ts st2 off ho, Option.some.injEq] at h
  subst h
  rfl

theorem insertAndPurge_sorted {s : StateFilter} {current ts : Nat} {st2 : Status}
    {s' : StateFilter} (hs : HistSorted s.packet_history)
    (h : s.insertAndPurge current ts st2 = some s') :
    HistSorted s'.packet_history := by
  cases ho : s.time_offset with
  | none => rw [insertAndPurge_eq_none s current ts st2 ho] at h; exact absurd h (by simp)
  | some off =>
    rw [insertAndPurge_history ho h]
    generalize wrapU64 (toI64 ts + off) = a
    exact sorted_takeWhile _ (sorted_insertIdx_takeWhile (a, st2) s.packet_history hs)

theorem push_packet_sorted {s : StateFilter} {now : Nat} {st : Status} {s' : StateFilter}
    (hs : HistSorted s.packet_history) (h : s.push_packet now st = some s') :
    HistSorted s'.packet_history := by
  cases hts : st.timestamp with
  | none => rw [push_packet_eq_none s now st hts] at h; exact absurd h (by simp)
  | some ts =>
    rw [push_packet_eq s now st ts hts] at h
    have hs2 : HistSorted ((s.applyInitialOffset now now ts).applyOffsetAdjustment
        now).packet_history := by
      rw [applyOffsetAdjustment_history, applyInitialOffset_history]; exact hs
    exact insertAndPurge_sorted hs2 h

theorem run_push_sorted :
    ∀ (events : List (Nat × Status)) (s s' : StateFilter),
      HistSorted s.packet_history → s.run_push events = some s' →
      HistSorted s'.packet_history := by
  intro events
  induction events with
  | nil =>
    intro s s' hs h
    simp only [StateFilter.run_push, Option.some.injEq] at h
    subst h; exact hs
  | cons e rest ih =>
    intro s s' hs h
    obtain ⟨now, st⟩ := e
    simp only [StateFilter.run_push] at h
    cases hp : s.push_packet now st with
    | none => rw [hp] at h; exact Option.noConfusion h
    | some s1 =>
      rw [hp] at h
      exact ih s1 s' (push_packet_sorted hs hp) h

/-- On a sorted history, the front scan over strictly greater timestamps
counts exactly the entries with a strictly greater timestamp. -/
theorem takeWhile_gt_length_eq_countP :
    ∀ (h : List (Nat × Status)) (c : Nat), HistSorted h →
      (h.takeWhile (fun e => decide (c < e.1))).length =
        h.countP (fun e => decide (c < e.1)) := by
  intro h
  induction h with
  | nil => intro c _; rfl
  | cons a t ih =>
    intro c hs
    rw [HistSorted, List.pairwise_cons] at hs
    obtain ⟨ha, ht⟩ := hs
    by_cases hc : c < a.1
    · rw [List.takeWhile_cons_of_pos (by simpa using hc), List.countP_cons]
      simp only [List.length_cons]
      rw [ih c ht]
      simp [hc]
    · rw [List.takeWhile_cons_of_neg (by simpa using hc), List.countP_cons]
      have h0 : t.countP (fun e => decide (c < e.1)) = 0 := by
        rw [List.countP_eq_zero]
        intro e he
        simp only [decide_eq_true_eq]
        intro habs
        exact hc (Nat.lt_of_lt_of_le habs (ha e he))
      simp [h0, hc]

/-- Claim C1: for every sequence of push_packet calls (each snapshot carrying
a sender timestamp) starting from the default filter, the packet history
stays sorted by local timestamp in non-increasing front-to-back order, and
each insertion position (the front take-while scan) counts exactly the
existing entries with a strictly greater timestamp. -/
theorem pushPacket_history_sorted_and_insert_position :
    (∀ (events : List (Nat × Status)) (s : StateFilter),
      StateFilter.init.run_push events = some s →
      s.packet_history.Pairwise (fun a b => b.1 ≤ a.1)) ∧
    (∀ (h : List (Nat × Status)) (c : Nat),
      h.Pairwise (fun a b => b.1 ≤ a.1) →
      (h.takeWhile (fun e => decide (c < e.1))).length =
        h.countP (fun e => decide (c < e.1))) := by
  constructor
  · intro events s h
    exact run_push_sorted events StateFilter.init s (by simp [HistSorted, StateFilter.init]) h
  · intro h c hs
    exact takeWhile_gt_length_eq_countP h c hs

/-- A minimal snapshot carrying only a sender timestamp. -/
def tsOnlyStatus (n : Nat) : Status := ⟨some n, none, none, none, none, [], none⟩

/-- The filter state produced by a single push of a timestamp-5 snapshot at
local time 5 microseconds. -/
def exampleFilterState : StateFilter :=
  ⟨[(5, tsOnlyStatus 5)], some 0, 10000000, some ⟨I64MAX, 0, 1000005⟩⟩

/-- Witness for C1: a concrete push sequence and a concrete scan position. -/
theorem pushPacket_history_sorted_and_insert_position_witness :
    exampleFilterState.packet_history.Pairwise (fun a b => b.1 ≤ a.1) ∧
    ([(9, tsOnlyStatus 9), (5, tsOnlyStatus 5), (2, tsOnlyStatus 2)].takeWhile
        (fun e => decide (4 < e.1))).length =
      [(9, tsOnlyStatus 9), (5, tsOnlyStatus 5), (2, tsOnlyStatus 2)].countP
        (fun e => decide (4 < e.1)) :=
  ⟨pushPacket_history_sorted_and_insert_position.1 [(5, tsOnlyStatus 5)]
      exampleFilterState (by decide),
   pushPacket_history_sorted_and_insert_position.2
      [(9, tsOnlyStatus 9), (5, tsOnlyStatus 5), (2, tsOnlyStatus 2)] 4 (by decide)⟩

/- ======== C2: retention purge ======== -/

theorem wrapU64_le_toNat (i : Int) (h : 0 ≤ i) : wrapU64 i ≤ i.toNat := by
  unfold wrapU64
  have hM : (0 : Int) < (U64MOD : Int) := by norm_num [U64MOD]
  have h1 : i % (U64MOD : Int) ≤ i := by
    have hdiv : 0 ≤ i / (U64MOD : Int) := Int.ediv_nonneg h (Int.le_of_lt hM)
    have := Int.emod_add_ediv i (U64MOD : Int)
    nlinarith [Int.emod_nonneg i (ne_of_gt hM)]
  exact Int.toNat_le_toNat h1

/-- Claim C2: after every push_packet call, no entry older than the 1 s
retention window relative to the current local time survives in the packet
history: every entry with localTimestamp + 1000000 micros < now is purged. -/
theorem pushPacket_purges_expired_entries :
    ∀ (s : StateFilter) (now : Nat) (st : Status) (s' : StateFilter),
      s.push_packet now st = some s' →
      ∀ e ∈ s'.packet_history, ¬ (e.1 + 1000000 < now) := by
  intro s now st s' h e he
  cases hts : st.timestamp with
  | none => rw [push_packet_eq_none s now st hts] at h; exact Option.noConfusion h
  | some ts =>
    rw [push_packet_eq s now st ts hts] at h
    set s2 := (s.applyInitialOffset now now ts).applyOffsetAdjustment now with hs2
    cases ho : s2.time_offset with
    | none =>
      rw [insertAndPurge_eq_none s2 now ts (remap_coordinates st) ho] at h
      exact Option.noConfusion h
    | some off =>
      rw [insertAndPurge_history ho h] at he
      have hp := List.mem_takeWhile_imp he
      simp only [decide_eq_true_eq] at hp
      have hle : wrapU64 ((e.1 : Int) + 1000000) ≤ ((e.1 : Int) + 1000000).toNat :=
        wrapU64_le_toNat ((e.1 : Int) + 1000000) (by omega)
      have htn : ((e.1 : Int) + 1000000).toNat = e.1 + 1000000 := by omega
      omega

/-- Witness for C2: a concrete push; the surviving entry is within the window. -/
theorem pushPacket_purges_expired_entries_witness :
    ¬ ((5 : Nat) + 1000000 < 5) :=
  pushPacket_purges_expired_entries StateFilter.init 5 (tsOnlyStatus 5)
    exampleFilterState (by decide) (5, tsOnlyStatus 5) (by simp [exampleFilterState])

/- ======== C10: timestamp unwrap precondition ======== -/

/-- Claim C10: push_packet unconditionally unwraps the optional sender
timestamp: a snapshot with a timestamp always completes (returns some),
while a snapshot without one panics (returns none). -/
theorem pushPacket_timestamp_unwrap :
    ∀ (s : StateFilter) (now : Nat) (st : Status),
      (st.timestamp.isSome → (s.push_packet now st).isSome) ∧
      (st.timestamp = none → s.push_packet now st = none) := by
  intro s now st
  constructor
  · intro hsome
    cases hts : st.timestamp with
    | none => rw [hts] at hsome; simp at hsome
    | some ts =>
      rw [push_packet_eq s now st ts hts]
      have hoff : ((s.applyInitialOffset now now ts).applyOffsetAdjustment
          now).time_offset.isSome :=
        applyOffsetAdjustment_offset_isSome _ now (applyInitialOffset_offset_isSome s now now ts)
      cases ho : ((s.applyInitialOffset now now ts).applyOffsetAdjustment now).time_offset with
      | none => rw [ho] at hoff; simp at hoff
      | some off =>
        rw [insertAndPurge_eq_some _ now ts (remap_coordinates st) off ho]
        simp
  · intro hn
    exact push_packet_eq_none s now st hn

/-- Witness for C10: a concrete snapshot with a timestamp is accepted. -/
theorem pushPacket_timestamp_unwrap_witness :
    ((StateFilter.init.push_packet 3 (tsOnlyStatus 2)).isSome) ∧
      (StateFilter.init.push_packet 3
        ⟨none, none, none, none, none, [], none⟩ = none) :=
  ⟨(pushPacket_timestamp_unwrap StateFilter.init 3 (tsOnlyStatus 2)).1 (by decide),
   (pushPacket_timestamp_unwrap StateFilter.init 3
      ⟨none, none, none, none, none, [], none⟩).2 rfl⟩


/- ======== C5: offset adaptation guard and formula ======== -/

theorem applyInitialOffset_of_some {s : StateFilter} {o : Int} (now cur ts : Nat)
    (ho : s.time_offset = some o) : s.applyInitialOffset now cur ts = s := by
  unfold StateFilter.applyInitialOffset
  rw [ho]

theorem applyOffsetAdjustment_of_minMax {s : StateFilter} {tr : BufferHealthTracker}
    (now : Nat) (htr : s.buffer_health_tracker = some tr)
    (hmin : tr.min_buffer_health = I64MAX) : s.applyOffsetAdjustment now = s := by
  unfold StateFilter.applyOffsetAdjustment
  rw [htr]
  dsimp only
  rw [if_neg]
  simp [hmin]

theorem applyOffsetAdjustment_fires {s : StateFilter} {tr : BufferHealthTracker}
    {now : Nat} (htr : s.buffer_health_tracker = some tr)
    (hsched : tr.scheduled_time < now) (hmin : tr.min_buffer_health ≠ I64MAX)
    (hbreach : tr.min_buffer_health > (TARGET_BUFFER_TIME : Int) * 2 ∨
      tr.stutter_count > s.health_tracking_period / 1000000 / 5) :
    s.applyOffsetAdjustment now =
      { s with
        time_offset := s.time_offset.map
          (fun o => o + ((TARGET_BUFFER_TIME : Int) - tr.min_buffer_health))
        buffer_health_tracker := some ⟨I64MAX, 0, now + s.health_tracking_period⟩ } := by
  unfold StateFilter.applyOffsetAdjustment
  rw [htr]
  dsimp only
  rw [if_pos ⟨hsched, hmin, hbreach⟩]

theorem insertAndPurge_other_fields {s : StateFilter} {current ts : Nat} {st2 : Status}
    {s' : StateFilter} (h : s.insertAndPurge current ts st2 = some s') :
    s'.time_offset = s.time_offset ∧
      s'.buffer_health_tracker = s.buffer_health_tracker ∧
      s'.health_tracking_period = s.health_tracking_period := by
  cases ho : s.time_offset with
  | none => rw [insertAndPurge_eq_none s current ts st2 ho] at h; exact Option.noConfusion h
  | some off =>
    rw [insertAndPurge_eq_some s current ts st2 off ho, Option.some.injEq] at h
    subst h
    exact ⟨ho ▸ rfl, rfl, rfl⟩

theorem push_packet_no_sample_noop {s : StateFilter} {now : Nat} {st : Status}
    {s' : StateFilter} {o : Int} {tr : BufferHealthTracker}
    (ho : s.time_offset = some o) (htr : s.buffer_health_tracker = some tr)
    (hmin : tr.min_buffer_health = I64MAX)
    (h : s.push_packet now st = some s') :
    s'.time_offset = some o ∧ s'.buffer_health_tracker = some tr ∧
      s'.health_tracking_period = s.health_tracking_period := by
  cases hts : st.timestamp with
  | none => rw [push_packet_eq_none s now st hts] at h; exact Option.noConfusion h
  | some ts =>
    rw [push_packet_eq s now st ts hts, applyInitialOffset_of_some now now ts ho,
      applyOffsetAdjustment_of_minMax now htr hmin] at h
    obtain ⟨h1, h2, h3⟩ := insertAndPurge_other_fields h
    exact ⟨h1.trans ho, h2.trans htr, h3⟩

theorem run_push_no_sample_noop :
    ∀ (events : List (Nat × Status)) (s s' : StateFilter) (o : Int)
      (tr : BufferHealthTracker),
      s.time_offset = some o → s.buffer_health_tracker = some tr →
      tr.min_buffer_health = I64MAX → s.run_push events = some s' →
      s'.time_offset = some o ∧ s'.buffer_health_tracker = some tr := by
  intro events
  induction events with
  | nil =>
    intro s s' o tr ho htr _ h
    simp only [StateFilter.run_push, Option.some.injEq] at h
    subst h; exact ⟨ho, htr⟩
  | cons e rest ih =>
    intro s s' o tr ho htr hmin h
    obtain ⟨now, st⟩ := e
    simp only [StateFilter.run_push] at h
    cases hp : s.push_packet now st with
    | none => rw [hp] at h; exact Option.noConfusion h
    | some s1 =>
      rw [hp] at h
      obtain ⟨h1, h2, _⟩ := push_packet_no_sample_noop ho htr hmin hp
      exact ih s1 s' o tr h1 h2 hmin h

theorem push_packet_adjusts {s : StateFilter} {now : Nat} {st : Status} {ts : Nat}
    {o : Int} {tr : BufferHealthTracker}
    (hts : st.timestamp = some ts) (ho : s.time_offset = some o)
    (htr : s.buffer_health_tracker = some tr)
    (hsched : tr.scheduled_time < now) (hmin : tr.min_buffer_health ≠ I64MAX)
    (hbreach : tr.min_buffer_health > (TARGET_BUFFER_TIME : Int) * 2 ∨
      tr.stutter_count > s.health_tracking_period / 1000000 / 5) :
    ∃ s', s.push_packet now st = some s' ∧
      s'.time_offset = some (o + ((TARGET_BUFFER_TIME : Int) - tr.min_buffer_health)) ∧
      s'.buffer_health_tracker = some ⟨I64MAX, 0, now + s.health_tracking_period⟩ := by
  rw [push_packet_eq s now st ts hts, applyInitialOffset_of_some now now ts ho,
    applyOffsetAdjustment_fires htr hsched hmin hbreach]
  set s2 : StateFilter :=
    { s with
      time_offset := s.time_offset.map
        (fun o => o + ((TARGET_BUFFER_TIME : Int) - tr.min_buffer_health))
      buffer_health_tracker := some ⟨I64MAX, 0, now + s.health_tracking_period⟩ } with hs2
  have ho2 : s2.time_offset =
      some (o + ((TARGET_BUFFER_TIME : Int) - tr.min_buffer_health)) := by
    rw [hs2]; simp [ho]
  refine ⟨_, insertAndPurge_eq_some s2 now ts (remap_coordinates st) _ ho2, ?_, ?_⟩
  · exact ho2
  · rw [hs2]

/-- Claim C5: offset adaptation never adjusts the clock offset before a
health sample was recorded in the current window (repeated pushes with the
i64::MAX sentinel leave offset and tracker untouched), and when it fires it
shifts the offset by (TARGET_BUFFER_TIME - min observed margin) and resets
the sample window. -/
theorem offset_adaptation_guard_and_formula :
    (∀ (events : List (Nat × Status)) (s s' : StateFilter) (o : Int)
        (tr : BufferHealthTracker),
      s.time_offset = some o → s.buffer_health_tracker = some tr →
      tr.min_buffer_health = I64MAX → s.run_push events = some s' →
      s'.time_offset = some o ∧ s'.buffer_health_tracker = some tr) ∧
    (∀ (s : StateFilter) (now : Nat) (st : Status) (ts : Nat) (o : Int)
        (tr : BufferHealthTracker),
      st.timestamp = some ts → s.time_offset = some o →
      s.buffer_health_tracker = some tr →
      tr.scheduled_time < now → tr.min_buffer_health ≠ I64MAX →
      (tr.min_buffer_health > (TARGET_BUFFER_TIME : Int) * 2 ∨
        tr.stutter_count > s.health_tracking_period / 1000000 / 5) →
      ∃ s', s.push_packet now st = some s' ∧
        s'.time_offset = some (o + ((TARGET_BUFFER_TIME : Int) - tr.min_buffer_health)) ∧
        s'.buffer_health_tracker = some ⟨I64MAX, 0, now + s.health_tracking_period⟩) :=
  ⟨fun events s s' o tr ho htr hmin h => run_push_no_sample_noop events s s' o tr ho htr hmin h,
   fun _ _ _ _ _ _ hts ho htr hsched hmin hbreach =>
      push_packet_adjusts hts ho htr hsched hmin hbreach⟩

/-- Witness for C5: a no-op cycle with no samples, and a firing adjustment. -/
theorem offset_adaptation_guard_and_formula_witness :
    (∀ s', exampleFilterState.run_push [(10, tsOnlyStatus 7)] = some s' →
      s'.time_offset = some 0 ∧
        s'.buffer_health_tracker = some ⟨I64MAX, 0, 1000005⟩) ∧
    (∃ s', (⟨[], some 0, 10000000,
        some ⟨30000, 0, 4⟩⟩ : StateFilter).push_packet 10 (tsOnlyStatus 1) = some s' ∧
      s'.time_offset = some (0 + ((TARGET_BUFFER_TIME : Int) - 30000)) ∧
      s'.buffer_health_tracker = some ⟨I64MAX, 0, 10 + 10000000⟩) :=
  ⟨fun s' h => offset_adaptation_guard_and_formula.1 [(10, tsOnlyStatus 7)]
      exampleFilterState s' 0 ⟨I64MAX, 0, 1000005⟩ rfl rfl rfl h,
   offset_adaptation_guard_and_formula.2 ⟨[], some 0, 10000000, some ⟨30000, 0, 4⟩⟩
      10 (tsOnlyStatus 1) 1 0 ⟨30000, 0, 4⟩ rfl rfl rfl (by decide) (by decide)
      (Or.inl (by decide))⟩

/- ======== current_world_state (sslgame/src/state_filter.rs) ======== -/

/-- The prev/next search loop of current_world_state: walk the (already
world-state-filtered) history newest first, shifting prev into next, and
stop at the first entry with a timestamp in the past. -/
def find_prev_next {α : Type} (curr : Nat) (prev nxt : Option (Nat × α)) :
    List (Nat × α) → Option (Nat × α) × Option (Nat × α)
  | [] => (prev, nxt)
  | p :: rest =>
    if p.1 < curr then (some p, prev) else find_prev_next curr (some p) prev rest

/-- state_filter.rs::interpolate_robots: match robots of prev and next by id
(robots absent from next are dropped), linearly interpolate positions, and
interpolate the heading along the wrapped difference
(d + PI).rem_euclid(2 PI) - PI. -/
def interpolate_robots (prev next : List Robot) (frac : ℚ) : List Robot :=
  prev.filterMap (fun pr =>
    (next.find? (fun nr => pr.id == nr.id)).map (fun nr =>
      { id := pr.id
        p_x := pr.p_x + frac * (nr.p_x - pr.p_x)
        p_y := pr.p_y + frac * (nr.p_y - pr.p_y)
        phi := pr.phi + frac * (ratRemEuclid (nr.phi - pr.phi + pi32) (2 * pi32) - pi32) }))

/-- state_filter.rs::interpolate_world_state: ratio between the two sample
times, single-ball linear interpolation (else take next's balls), and robot
interpolation per team. -/
def interpolate_world_state (curr_time prev_time : Nat) (prev : WorldState)
    (next_time : Nat) (next : WorldState) : WorldState :=
  let frac : ℚ := ((curr_time : ℚ) - (prev_time : ℚ)) / ((next_time : ℚ) - (prev_time : ℚ))
  { ball :=
      match prev.ball, next.ball with
      | [pb], [nb] =>
        [{ p_x := pb.p_x + frac * (nb.p_x - pb.p_x)
           p_y := pb.p_y + frac * (nb.p_y - pb.p_y)
           p_z := pb.p_z.bind (fun pz => nb.p_z.map (fun nz => pz + frac * (nz - pz))) }]
      | _, _ => next.ball
    yellow_robot := interpolate_robots prev.yellow_robot next.yellow_robot frac
    blue_robot := interpolate_robots prev.blue_robot next.blue_robot frac }

/-- StateFilter::current_world_state. Returns the reconstructed snapshot and
the filter state with the health tracker updates applied (the Rust code
mutates the tracker through atomics on a shared reference); none models a
panic (unwrap of a missing world state or the unreachable prev-less next). -/
def StateFilter.current_world_state (s : StateFilter) (now : Nat) (filt : Bool) :
    Option (WorldState × StateFilter) :=
  if filt = false then
    some ((s.packet_history.findSome? (fun p => p.2.world_state)).getD defaultWorldState, s)
  else
    let curr := now
    let relevant := s.packet_history.filter (fun e => e.2.world_state.isSome)
    match find_prev_next curr none none relevant with
    | (some (prev_time, prevp), some (next_time, nextp)) =>
      let strack : Option StateFilter :=
        match s.buffer_health_tracker with
        | some tr =>
          match relevant.head? with
          | some (latest_ts, _) =>
            let trm : BufferHealthTracker :=
              ⟨min tr.min_buffer_health (toI64 latest_ts - toI64 curr),
                tr.stutter_count, tr.scheduled_time⟩
            some { s with buffer_health_tracker := some trm }
          | none => none
        | none => some s
      match strack, prevp.world_state, nextp.world_state with
      | some s2, some pw, some nw =>
        some (interpolate_world_state curr prev_time pw next_time nw, s2)
      | _, _, _ => none
    | (some (prev_time, prevp), none) =>
      let s2 : StateFilter :=
        match s.buffer_health_tracker with
        | some tr =>
          let trm : BufferHealthTracker :=
            ⟨min tr.min_buffer_health (toI64 prev_time - toI64 curr),
              tr.stutter_count + 1, tr.scheduled_time⟩
          { s with buffer_health_tracker := some trm }
        | none => s
      match relevant[1]? with
      | some (pp_time, ppp) =>
        match ppp.world_state, prevp.world_state with
        | some ppw, some pw =>
          some (interpolate_world_state curr pp_time ppw prev_time pw, s2)
        | _, _ => none
      | none =>
        match prevp.world_state with
        | some pw => some (pw, s2)
        | none => none
    | (none, some _) => none
    | (none, none) => some (defaultWorldState, s)

/- ======== Legacy variant (src/sslgame/state_filter.rs, amun_compact) ======== -/

/-- Legacy amun_compact::WorldState: the ball is optional rather than
repeated. -/
structure LegacyWorldState where
  ball : Option Ball
  yellow_robot : List Robot
  blue_robot : List Robot
deriving DecidableEq

/-- Legacy amun_compact::Status (fields used by the legacy filter). -/
structure LegacyStatus where
  timestamp : Option Nat
  world_state : Option LegacyWorldState
deriving DecidableEq

/-- Legacy interpolate_robots (src/sslgame/state_filter.rs): identical except
that phi is interpolated along the naive linear difference, without wrapping. -/
def legacy_interpolate_robots (prev next : List Robot) (frac : ℚ) : List Robot :=
  prev.filterMap (fun pr =>
    (next.find? (fun nr => pr.id == nr.id)).map (fun nr =>
      { id := pr.id
        p_x := pr.p_x + frac * (nr.p_x - pr.p_x)
        p_y := pr.p_y + frac * (nr.p_y - pr.p_y)
        phi := pr.phi + frac * (nr.phi - pr.phi) }))

/-- Legacy interpolate_world_state (optional ball, naive phi). -/
def legacy_interpolate_world_state (curr_time prev_time : Nat) (prev : LegacyWorldState)
    (next_time : Nat) (next : LegacyWorldState) : LegacyWorldState :=
  let frac : ℚ := ((curr_time : ℚ) - (prev_time : ℚ)) / ((next_time : ℚ) - (prev_time : ℚ))
  { ball := prev.ball.bind (fun pb => next.ball.map (fun nb =>
      { p_x := pb.p_x + frac * (nb.p_x - pb.p_x)
        p_y := pb.p_y + frac * (nb.p_y - pb.p_y)
        p_z := pb.p_z.bind (fun pz => nb.p_z.map (fun nz => pz + frac * (nz - pz))) }))
    yellow_robot := legacy_interpolate_robots prev.yellow_robot next.yellow_robot frac
    blue_robot := legacy_interpolate_robots prev.blue_robot next.blue_robot frac }

/-- Legacy StateFilter::current_world_state (src/sslgame/state_filter.rs):
same prev/next search, but in the buffer-underrun case it only records the
stutter and returns prev's world state unchanged; it never extrapolates. -/
def legacy_current_world_state (history : List (Nat × LegacyStatus))
    (tracker : Option BufferHealthTracker) (now : Nat) :
    Option (LegacyWorldState × Option BufferHealthTracker) :=
  let curr := now
  let relevant := history.filter (fun e => e.2.world_state.isSome)
  match find_prev_next curr none none relevant with
  | (some (prev_time, prevp), some (next_time, nextp)) =>
    let tr2 : Option (Option BufferHealthTracker) :=
      match tracker with
      | some tr =>
        match relevant.head? with
        | some (latest_ts, _) =>
          some (some ⟨min tr.min_buffer_health (toI64 latest_ts - toI64 curr),
            tr.stutter_count, tr.scheduled_time⟩)
        | none => none
      | none => some none
    match tr2, prevp.world_state, nextp.world_state with
    | some t2, some pw, some nw =>
      some (legacy_interpolate_world_state curr prev_time pw next_time nw, t2)
    | _, _, _ => none
  | (some (prev_time, prevp), none) =>
    let t2 : Option BufferHealthTracker :=
      match tracker with
      | some tr =>
        some ⟨min tr.min_buffer_health (toI64 prev_time - toI64 curr),
          tr.stutter_count + 1, tr.scheduled_time⟩
      | none => none
    match prevp.world_state with
    | some pw => some (pw, t2)
    | none => none
  | (none, some _) => none
  | (none, none) => some (⟨none, [], []⟩, tracker)

/- ======== C3: shortest-path heading interpolation ======== -/

theorem ratRemEuclid_eq_mul_fract (a b : ℚ) (hb : b ≠ 0) :
    ratRemEuclid a b = b * Int.fract (a / b) := by
  unfold ratRemEuclid
  rw [Int.fract, mul_sub]
  have : b * (a / b) = a := by field_simp
  rw [this]

theorem ratRemEuclid_nonneg (a b : ℚ) (hb : 0 < b) : 0 ≤ ratRemEuclid a b := by
  rw [ratRemEuclid_eq_mul_fract a b (ne_of_gt hb)]
  exact mul_nonneg hb.le (Int.fract_nonneg _)

theorem ratRemEuclid_lt (a b : ℚ) (hb : 0 < b) : ratRemEuclid a b < b := by
  rw [ratRemEuclid_eq_mul_fract a b (ne_of_gt hb)]
  calc b * Int.fract (a / b) < b * 1 :=
        mul_lt_mul_of_pos_left (Int.fract_lt_one _) hb
    _ = b := mul_one b

theorem pi32_pos : (0 : ℚ) < pi32 := by norm_num [pi32]

/-- C3 (amended): every robot produced by interpolate_robots comes from an
id-matched pair and its heading is pr.phi + ratio * w where w is the
difference nr.phi - pr.phi wrapped into the interval from -PI (inclusive) to
PI (exclusive), i.e. w differs from the raw difference by an integer
multiple of 2 PI; concretely, interpolating the headings 170 deg and
-170 deg (as exact multiples of the f32 PI) at ratio 1/2 yields 180 deg,
not the naive average 0. -/
theorem interpolate_robots_shortest_path :
    (∀ (prev next : List Robot) (frac : ℚ) (r : Robot),
      r ∈ interpolate_robots prev next frac →
      ∃ pr ∈ prev, ∃ nr ∈ next, pr.id = nr.id ∧
        r.phi = pr.phi +
          frac * (ratRemEuclid (nr.phi - pr.phi + pi32) (2 * pi32) - pi32) ∧
        -pi32 ≤ ratRemEuclid (nr.phi - pr.phi + pi32) (2 * pi32) - pi32 ∧
        ratRemEuclid (nr.phi - pr.phi + pi32) (2 * pi32) - pi32 < pi32 ∧
        ∃ k : ℤ, (nr.phi - pr.phi) -
            (ratRemEuclid (nr.phi - pr.phi + pi32) (2 * pi32) - pi32) =
          (k : ℚ) * (2 * pi32)) ∧
    interpolate_robots [⟨3, 0, 0, (17/18 : ℚ) * pi32⟩]
        [⟨3, 0, 0, -((17/18 : ℚ) * pi32)⟩] (1/2) = [⟨3, 0, 0, pi32⟩] := by
  constructor
  · intro prev next frac r hr
    rw [interpolate_robots, List.mem_filterMap] at hr
    obtain ⟨pr, hpr, hf⟩ := hr
    rw [Option.map_eq_some'] at hf
    obtain ⟨nr, hfind, hmk⟩ := hf
    have hnr : nr ∈ next := List.mem_of_find?_eq_some hfind
    have hid : pr.id = nr.id := by
      have := List.find?_some hfind
      simpa using this
    refine ⟨pr, hpr, nr, hnr, hid, ?_, ?_, ?_, ?_⟩
    · rw [← hmk]
    · have h0 := ratRemEuclid_nonneg (nr.phi - pr.phi + pi32) (2 * pi32)
        (by linarith [pi32_pos])
      linarith [pi32_pos]
    · have hlt := ratRemEuclid_lt (nr.phi - pr.phi + pi32) (2 * pi32)
        (by linarith [pi32_pos])
      linarith
    · refine ⟨⌊(nr.phi - pr.phi + pi32) / (2 * pi32)⌋, ?_⟩
      unfold ratRemEuclid
      ring
  · simp only [interpolate_robots, List.filterMap_cons, List.find?_cons,
      List.filterMap_nil]
    norm_num [ratRemEuclid, pi32]

/-- Witness for C3: the general clause applied to the concrete 170 and -170 pair. -/
theorem interpolate_robots_shortest_path_witness :
    ∃ pr ∈ [(⟨3, 0, 0, (17/18 : ℚ) * pi32⟩ : Robot)],
      ∃ nr ∈ [(⟨3, 0, 0, -((17/18 : ℚ) * pi32)⟩ : Robot)], pr.id = nr.id ∧
        (⟨3, 0, 0, pi32⟩ : Robot).phi = pr.phi +
          (1/2 : ℚ) * (ratRemEuclid (nr.phi - pr.phi + pi32) (2 * pi32) - pi32) ∧
        -pi32 ≤ ratRemEuclid (nr.phi - pr.phi + pi32) (2 * pi32) - pi32 ∧
        ratRemEuclid (nr.phi - pr.phi + pi32) (2 * pi32) - pi32 < pi32 ∧
        ∃ k : ℤ, (nr.phi - pr.phi) -
            (ratRemEuclid (nr.phi - pr.phi + pi32) (2 * pi32) - pi32) =
          (k : ℚ) * (2 * pi32) :=
  interpolate_robots_shortest_path.1 _ _ (1/2) ⟨3, 0, 0, pi32⟩
    (by rw [interpolate_robots_shortest_path.2]; exact List.mem_singleton.mpr rfl)

/-- Counterexample for C3 as stated: the legacy variant
(src/sslgame/state_filter.rs) interpolates phi by the naive linear
difference, so the same 170 and -170 degree pair at ratio 1/2 yields 0, not 180
(pi32): the claim is false for that variant of currentWorldState. -/
theorem legacy_phi_naive_average :
    legacy_interpolate_robots [⟨3, 0, 0, (17/18 : ℚ) * pi32⟩]
        [⟨3, 0, 0, -((17/18 : ℚ) * pi32)⟩] (1/2) = [⟨3, 0, 0, 0⟩] ∧
      (0 : ℚ) ≠ pi32 := by
  constructor
  · simp only [legacy_interpolate_robots, List.filterMap_cons, List.find?_cons,
      List.filterMap_nil]
    norm_num [pi32]
  · norm_num [pi32]

/- ======== C4: buffer underrun handling ======== -/

theorem find_prev_next_cons_lt {α : Type} (curr t1 : Nat) (x1 : α)
    (rest : List (Nat × α)) (h : t1 < curr) :
    find_prev_next curr none none ((t1, x1) :: rest) = (some (t1, x1), none) := by
  unfold find_prev_next
  exact if_pos h

/-- The tracker state written by the buffer-underrun branch: record the
margin sample and count one stutter. -/
def underrunTracker (tr : BufferHealthTracker) (prev_time now : Nat) :
    BufferHealthTracker :=
  ⟨min tr.min_buffer_health (toI64 prev_time - toI64 now),
    tr.stutter_count + 1, tr.scheduled_time⟩

/-- C4 (amended): when the query time is past the newest world-state sample
(buffer underrun), current_world_state of the sslgame crate variant counts a
stutter, and: with a second world-state sample present it extrapolates by
the shared interpolation formula, whose ratio exceeds 1 whenever the two
sample times are distinct; with a single sample it returns it unchanged;
with no world-state sample at all it returns the default snapshot. -/
theorem current_world_state_underrun :
    (∀ (s : StateFilter) (now t1 t2 : Nat) (x1 x2 : Status)
        (rest : List (Nat × Status)) (tr : BufferHealthTracker) (w1 w2 : WorldState),
      s.packet_history.filter (fun e => e.2.world_state.isSome) =
        (t1, x1) :: (t2, x2) :: rest →
      s.buffer_health_tracker = some tr →
      x1.world_state = some w1 → x2.world_state = some w2 →
      t1 < now →
      s.current_world_state now true =
        some (interpolate_world_state now t2 w2 t1 w1,
          { s with buffer_health_tracker := some (underrunTracker tr t1 now) }) ∧
      (t2 < t1 → 1 < ((now : ℚ) - (t2 : ℚ)) / ((t1 : ℚ) - (t2 : ℚ)))) ∧
    (∀ (s : StateFilter) (now t1 : Nat) (x1 : Status) (tr : BufferHealthTracker)
        (w1 : WorldState),
      s.packet_history.filter (fun e => e.2.world_state.isSome) = [(t1, x1)] →
      s.buffer_health_tracker = some tr →
      x1.world_state = some w1 →
      t1 < now →
      s.current_world_state now true =
        some (w1, { s with buffer_health_tracker := some (underrunTracker tr t1 now) })) ∧
    (∀ (s : StateFilter) (now : Nat),
      s.packet_history.filter (fun e => e.2.world_state.isSome) = [] →
      s.current_world_state now true = some (defaultWorldState, s)) := by
  refine ⟨?_, ?_, ?_⟩
  · intro s now t1 t2 x1 x2 rest tr w1 w2 hrel htr hw1 hw2 hlt
    constructor
    · simp only [StateFilter.current_world_state, Bool.true_eq_false, if_neg,
        hrel, htr, find_prev_next_cons_lt now t1 x1 _ hlt]
      simp [hw1, hw2, underrunTracker]
    · intro h21
      have hq21 : (t2 : ℚ) < (t1 : ℚ) := by exact_mod_cast h21
      have hqn : (t1 : ℚ) < (now : ℚ) := by exact_mod_cast hlt
      rw [one_lt_div (by linarith)]
      linarith
  · intro s now t1 x1 tr w1 hrel htr hw1 hlt
    simp only [StateFilter.current_world_state, Bool.true_eq_false, if_neg,
      hrel, htr, find_prev_next_cons_lt now t1 x1 _ hlt]
    simp [hw1, underrunTracker]
  · intro s now hrel
    simp only [StateFilter.current_world_state, Bool.true_eq_false, if_neg, hrel]
    simp [find_prev_next]

/-- A world-state snapshot with the ball at x = 10. -/
def wsA : WorldState := ⟨[⟨10, 0, none⟩], [], []⟩

/-- A world-state snapshot with the ball at x = 0. -/
def wsB : WorldState := ⟨[⟨0, 0, none⟩], [], []⟩

/-- Status wrapping wsA. -/
def stA : Status := ⟨some 100, some wsA, none, none, none, [], none⟩

/-- Status wrapping wsB. -/
def stB : Status := ⟨some 50, some wsB, none, none, none, [], none⟩

/-- A filter in buffer underrun: both samples are in the past of now = 200. -/
def underrunExample : StateFilter :=
  ⟨[(100, stA), (50, stB)], some 0, 10000000, some ⟨I64MAX, 0, 0⟩⟩

/-- The filter state after the underrun read: one stutter recorded. -/
def underrunExampleAfter : StateFilter :=
  ⟨[(100, stA), (50, stB)], some 0, 10000000,
    some (underrunTracker ⟨I64MAX, 0, 0⟩ 100 200)⟩

/-- Witness for C4: the concrete underrun at now = 200 extrapolates from the
two past samples and the ratio is 3 > 1. -/
theorem current_world_state_underrun_witness :
    underrunExample.current_world_state 200 true =
      some (interpolate_world_state 200 50 wsB 100 wsA, underrunExampleAfter) ∧
    (50 < 100 → 1 < ((200 : ℚ) - (50 : ℚ)) / ((100 : ℚ) - (50 : ℚ))) :=
  current_world_state_underrun.1 underrunExample 200 100 50 stA stB []
    ⟨I64MAX, 0, 0⟩ wsA wsB rfl rfl rfl rfl (by decide)

/-- A legacy world state with the ball at x = 10. -/
def lwsA : LegacyWorldState := ⟨some ⟨10, 0, none⟩, [], []⟩

/-- A legacy world state with the ball at x = 0. -/
def lwsB : LegacyWorldState := ⟨some ⟨0, 0, none⟩, [], []⟩

/-- Counterexample for C4 as stated: the legacy variant
(src/sslgame/state_filter.rs) in the same underrun situation returns prev's
world state unchanged even though a second world-state sample exists, and
that held state differs from the extrapolated one the claim requires. -/
theorem legacy_underrun_never_extrapolates :
    legacy_current_world_state
        [(100, ⟨some 100, some lwsA⟩), (50, ⟨some 50, some lwsB⟩)]
        (some ⟨I64MAX, 0, 0⟩) 200 =
      some (lwsA, some ⟨-100, 1, 0⟩) ∧
    lwsA ≠ legacy_interpolate_world_state 200 50 lwsB 100 lwsA := by
  constructor
  · rfl
  · intro h
    have hb := congrArg LegacyWorldState.ball h
    norm_num [lwsA, lwsB, legacy_interpolate_world_state, Option.some_bind,
      Option.map_some', Ball.mk.injEq] at hb

/- ======== C8: game state and field geometry accessors ======== -/

/-- GameState as exposed to consumers (team display names). -/
structure GameState where
  yellow_team : String
  blue_team : String
deriving DecidableEq

/-- Consumer-facing field geometry record. -/
structure FieldGeometry where
  play_area_size : ℚ × ℚ
  boundary_width : ℚ
  defense_size : ℚ × ℚ
  goal_width : ℚ
deriving DecidableEq

/-- FieldGeometry::DIV_A, the Default for FieldGeometry. -/
def FieldGeometry.DIV_A : FieldGeometry := ⟨(12, 9), 3/10, (9/5, 18/5), 9/5⟩

/-- StateFilter::current_game_state: read the front (newest) packet only and
map missing team records to empty names. -/
def StateFilter.current_game_state (s : StateFilter) : GameState :=
  match s.packet_history.head? with
  | some p =>
    ⟨(p.2.yellow_team.map TeamInfo.name).getD "",
      (p.2.blue_team.map TeamInfo.name).getD ""⟩
  | none => ⟨"", ""⟩

/-- StateFilter::current_field_geometry: first present geometry record in
front-to-back scan order; a record with zero play area, zero defense area or
zero goal width falls back to the default (DIV_A). -/
def StateFilter.current_field_geometry (s : StateFilter) : FieldGeometry :=
  match s.packet_history.findSome? (fun p => p.2.field_geometry) with
  | some g =>
    let geom : FieldGeometry :=
      ⟨(g.field_size_x, g.field_size_y), g.boundary_width.getD 0,
        (g.defense_size_x, g.defense_size_y), g.goal_width⟩
    if geom.play_area_size = ((0 : ℚ), (0 : ℚ)) ∨
        geom.defense_size = ((0 : ℚ), (0 : ℚ)) ∨ geom.goal_width = 0 then
      FieldGeometry.DIV_A
    else geom
  | none => FieldGeometry.DIV_A

/-- Modelled from the spec: currentGameState is described as returning the
most recent non-empty game-state sub-record found scanning the history
front-to-back; the sources under src only ever read the newest packet, so
this scanning definition exists purely for comparison. -/
def current_game_state_spec (s : StateFilter) : GameState :=
  match s.packet_history.findSome? (fun p =>
      match p.2.yellow_team, p.2.blue_team with
      | some y, some b => some (y, b)
      | _, _ => none) with
  | some (y, b) => ⟨y.name, b.name⟩
  | none => ⟨"", ""⟩

/-- Newest packet carries no team info. -/
def stNoTeams : Status := ⟨some 2, none, none, none, none, [], none⟩

/-- Older packet carries team names. -/
def stTeams : Status := ⟨some 1, none, none, some ⟨"A"⟩, some ⟨"B"⟩, [], none⟩

/-- History whose newest packet lacks team info while an older one has it. -/
def gameStateExample : StateFilter :=
  ⟨[(2, stNoTeams), (1, stTeams)], some 0, 10000000, none⟩

/-- Counterexample for C8 as stated: current_game_state does not scan for the
most recent non-empty game-state sub-record; with the team names only in the
second-newest packet it returns empty names, unlike the spec's scan. -/
theorem current_game_state_not_scanning :
    gameStateExample.current_game_state ≠ current_game_state_spec gameStateExample := by
  decide

theorem findSome?_of_first_some {α β : Type} (f : α → Option β) :
    ∀ (l : List α) (i : Nat) (x : α) (y : β),
      l[i]? = some x → f x = some y →
      (∀ j, j < i → ∀ q, l[j]? = some q → f q = none) →
      l.findSome? f = some y := by
  intro l
  induction l with
  | nil => intro i x y hx; simp at hx
  | cons a t ih =>
    intro i x y hx hf hbefore
    cases i with
    | zero =>
      simp only [List.getElem?_cons_zero, Option.some.injEq] at hx
      subst hx
      rw [List.findSome?_cons, hf]
    | succ j =>
      have ha : f a = none := hbefore 0 (Nat.succ_pos j) a (by simp)
      rw [List.findSome?_cons, ha]
      simp only [List.getElem?_cons_succ] at hx
      exact ih j x y hx hf (fun j' hj' q hq =>
        hbefore (j' + 1) (Nat.succ_lt_succ hj') q
          (by rw [List.getElem?_cons_succ]; exact hq))

/-- C8 (amended): current_field_geometry returns the conversion of the most
recent present geometry record in front-to-back scan order, falling back to
the default DIV_A geometry when that record has zero play area, defense area
or goal width, or when no record is present; current_game_state, by
contrast, reads only the newest packet and maps absent team records to
empty names (it does not scan for an older non-empty record). -/
theorem field_geometry_scans_game_state_reads_front :
    (∀ (s : StateFilter) (i : Nat) (p : Nat × Status) (g : GeometryData),
      s.packet_history[i]? = some p → p.2.field_geometry = some g →
      (∀ j, j < i → ∀ q, s.packet_history[j]? = some q →
        q.2.field_geometry = none) →
      s.current_field_geometry =
        (if (g.field_size_x, g.field_size_y) = ((0 : ℚ), (0 : ℚ)) ∨
            (g.defense_size_x, g.defense_size_y) = ((0 : ℚ), (0 : ℚ)) ∨
            g.goal_width = 0 then
          FieldGeometry.DIV_A
        else
          ⟨(g.field_size_x, g.field_size_y), g.boundary_width.getD 0,
            (g.defense_size_x, g.defense_size_y), g.goal_width⟩)) ∧
    (∀ (s : StateFilter),
      (∀ p ∈ s.packet_history, p.2.field_geometry = none) →
      s.current_field_geometry = FieldGeometry.DIV_A) ∧
    (∀ (s : StateFilter) (p : Nat × Status) (rest : List (Nat × Status)),
      s.packet_history = p :: rest →
      s.current_game_state =
        ⟨(p.2.yellow_team.map TeamInfo.name).getD "",
          (p.2.blue_team.map TeamInfo.name).getD ""⟩) := by
  refine ⟨?_, ?_, ?_⟩
  · intro s i p g hp hg hbefore
    have hfind : s.packet_history.findSome? (fun p => p.2.field_geometry) = some g :=
      findSome?_of_first_some _ s.packet_history i p g hp hg
        (fun j hj q hq => hbefore j hj q hq)
    simp only [StateFilter.current_field_geometry, hfind]
  · intro s hall
    have hfind : s.packet_history.findSome? (fun p => p.2.field_geometry) = none := by
      rw [List.findSome?_eq_none_iff]
      intro p hp
      rw [hall p hp]
    simp only [StateFilter.current_field_geometry, hfind]
  · intro s p rest hh
    simp only [StateFilter.current_game_state, hh, List.head?_cons]

/-- A concrete non-degenerate geometry record. -/
def geomD : GeometryData := ⟨12, 9, some (3/10), 9/5, 18/5, 9/5⟩

/-- Status carrying geomD. -/
def stGeom : Status := ⟨some 3, none, some geomD, none, none, [], none⟩

/-- Filter whose only packet carries geomD. -/
def geomExample : StateFilter := ⟨[(3, stGeom)], some 0, 10000000, none⟩

/-- Witness for C8 (amended): concrete geometry scan and front-only game
state read. -/
theorem field_geometry_scans_game_state_reads_front_witness :
    (geomExample.current_field_geometry =
      (if (geomD.field_size_x, geomD.field_size_y) = ((0 : ℚ), (0 : ℚ)) ∨
          (geomD.defense_size_x, geomD.defense_size_y) = ((0 : ℚ), (0 : ℚ)) ∨
          geomD.goal_width = 0 then
        FieldGeometry.DIV_A
      else
        ⟨(geomD.field_size_x, geomD.field_size_y), geomD.boundary_width.getD 0,
          (geomD.defense_size_x, geomD.defense_size_y), geomD.goal_width⟩)) ∧
    gameStateExample.current_game_state =
      ⟨((2, stNoTeams).2.yellow_team.map TeamInfo.name).getD "",
        ((2, stNoTeams).2.blue_team.map TeamInfo.name).getD ""⟩ :=
  ⟨field_geometry_scans_game_state_reads_front.1 geomExample 0 (3, stGeom) geomD
      rfl rfl (fun j hj q _ => absurd hj (Nat.not_lt_zero j)),
   field_geometry_scans_game_state_reads_front.2.2 gameStateExample
      (2, stNoTeams) [(1, stTeams)] rfl⟩

/- ======== C7: host discovery deduplication (src/sslgame/network_tasks.rs) ======== -/

/-- An IPv6 source socket address (fields relevant to deduplication:
identity and port). -/
structure SockAddr where
  ip : Nat
  port : Nat
deriving DecidableEq

/-- A network interface as used by the discovery loop (only the index takes
part in deduplication). -/
structure Iface where
  index : Nat
deriving DecidableEq

/-- proto HostAdvertisement (field used by deduplication). -/
structure HostAd where
  hostname : Option String
deriving DecidableEq

/-- One iteration of the host collection loop of host_discovery_task: replace
a known host seen on a lower interface index, else add the host if neither
its address nor its hostname/port pair is already known. -/
def host_discovery_step (hosts : List ((SockAddr × Iface) × HostAd))
    (new_source_addr : SockAddr) (source_if : Iface) (new_host : HostAd) :
    List ((SockAddr × Iface) × HostAd) :=
  if hosts.any (fun h =>
      decide (h.1.1 = new_source_addr ∧ source_if.index < h.1.2.index)) then
    (hosts.filter (fun h => decide (¬ h.1.1 = new_source_addr))) ++
      [((new_source_addr, source_if), new_host)]
  else if ¬ hosts.any (fun h =>
      decide ((new_host.hostname.isSome ∧ h.2.hostname = new_host.hostname ∧
          h.1.1.port = new_source_addr.port) ∨ h.1.1 = new_source_addr)) then
    hosts ++ [((new_source_addr, source_if), new_host)]
  else hosts

/-- Claim C7: two advertisements from the same source address and port on
different interface indices collapse, in either arrival order, to a single
host entry keeping the lowest interface index. -/
theorem host_dedup_lowest_interface :
    ∀ (addr : SockAddr) (i1 i2 : Nat) (h1 h2 : HostAd), i1 ≠ i2 →
      ∃ ad, host_discovery_step (host_discovery_step [] addr ⟨i1⟩ h1) addr ⟨i2⟩ h2 =
        [((addr, ⟨min i1 i2⟩), ad)] := by
  intro addr i1 i2 h1 h2 hne
  have hstep1 : host_discovery_step [] addr ⟨i1⟩ h1 = [((addr, ⟨i1⟩), h1)] := by
    simp [host_discovery_step]
  rw [hstep1]
  rcases Nat.lt_or_ge i2 i1 with hlt | hge
  · refine ⟨h2, ?_⟩
    have hmin : min i1 i2 = i2 := Nat.min_eq_right (Nat.le_of_lt hlt)
    rw [hmin]
    simp [host_discovery_step, hlt]
  · have hlt : i1 < i2 := Nat.lt_of_le_of_ne hge (Ne.symm hne ∘ Eq.symm)
    refine ⟨h1, ?_⟩
    have hmin : min i1 i2 = i1 := Nat.min_eq_left (Nat.le_of_lt hlt)
    rw [hmin]
    simp [host_discovery_step, Nat.not_lt_of_lt hlt, Nat.le_of_lt hlt]

/-- Witness for C7: interfaces 5 then 2, and 2 then 5, both keep index 2. -/
theorem host_dedup_lowest_interface_witness :
    (∃ ad, host_discovery_step (host_discovery_step [] ⟨7, 11000⟩ ⟨5⟩ ⟨none⟩)
        ⟨7, 11000⟩ ⟨2⟩ ⟨none⟩ = [((⟨7, 11000⟩, ⟨min 5 2⟩), ad)]) ∧
    (∃ ad, host_discovery_step (host_discovery_step [] ⟨7, 11000⟩ ⟨2⟩ ⟨none⟩)
        ⟨7, 11000⟩ ⟨5⟩ ⟨none⟩ = [((⟨7, 11000⟩, ⟨min 2 5⟩), ad)]) :=
  ⟨host_dedup_lowest_interface ⟨7, 11000⟩ 5 2 ⟨none⟩ ⟨none⟩ (by decide),
   host_dedup_lowest_interface ⟨7, 11000⟩ 2 5 ⟨none⟩ ⟨none⟩ (by decide)⟩

/- ======== C9: bind_multicast (src/sslgame/ssm_socket.rs) ======== -/

/-- Errors of the bind loop: OS errors (by code) and the
"could not bind to any of the addresses" error built when no candidate was
even attempted. -/
inductive BindErr where
  | os (code : Nat)
  | noViable
deriving DecidableEq

/-- One resolved candidate address together with the outcome the operating
system would give each step for it: socket creation, SO_REUSEADDR, bind,
and the OwnedFd conversion of the bound socket. -/
structure BindCandidate where
  is_ipv6 : Bool
  new_err : Option Nat
  reuse_err : Option Nat
  bind_err : Option Nat
  convert_err : Option Nat
  socket : Nat
deriving DecidableEq

/-- SSMSocketExtension::bind_multicast: walk the resolved candidates in
order; socket creation and reuse failures propagate immediately (the Rust
question-mark operator); a bind failure is remembered as last_err and the
loop continues; a successful bind returns the converted socket; after the
loop the last bind error is returned, or the "no viable address" error when
no candidate was tried. -/
def bind_multicast : List BindCandidate → Option Nat → Except BindErr Nat
  | [], none => .error .noViable
  | [], some e => .error (.os e)
  | c :: rest, last_err =>
    match c.new_err with
    | some e => .error (.os e)
    | none =>
      match c.reuse_err with
      | some e => .error (.os e)
      | none =>
        match c.bind_err with
        | none =>
          match c.convert_err with
          | none => .ok c.socket
          | some e => .error (.os e)
        | some e => bind_multicast rest (some e)

/-- A candidate whose every OS interaction succeeds. -/
def cleanCandidate (c : BindCandidate) : Prop :=
  c.new_err = none ∧ c.reuse_err = none ∧ c.convert_err = none

theorem bind_multicast_noViable_of :
    ∀ (cands : List BindCandidate) (last : Option Nat),
      bind_multicast cands last = .error .noViable → cands = [] ∧ last = none := by
  intro cands
  induction cands with
  | nil =>
    intro last h
    cases last with
    | none => exact ⟨rfl, rfl⟩
    | some e => simp [bind_multicast] at h
  | cons c rest ih =>
    intro last h
    simp only [bind_multicast] at h
    cases hn : c.new_err with
    | some e => rw [hn] at h; simp at h
    | none =>
      rw [hn] at h
      cases hr : c.reuse_err with
      | some e => rw [hr] at h; simp at h
      | none =>
        rw [hr] at h
        cases hb : c.bind_err with
        | none =>
          rw [hb] at h
          cases hc : c.convert_err with
          | some e => rw [hc] at h; simp at h
          | none => rw [hc] at h; simp at h
        | some e =>
          rw [hb] at h
          obtain ⟨-, habs⟩ := ih (some e) h
          exact Option.noConfusion habs

theorem bind_multicast_first_success :
    ∀ (cands : List BindCandidate) (c : BindCandidate) (last : Option Nat),
      (∀ c' ∈ cands, cleanCandidate c') →
      cands.find? (fun c' => c'.bind_err.isNone) = some c →
      bind_multicast cands last = .ok c.socket := by
  intro cands
  induction cands with
  | nil => intro c last _ hfind; simp at hfind
  | cons a rest ih =>
    intro c last hclean hfind
    obtain ⟨hn, hr, hc⟩ := hclean a (List.mem_cons_self a rest)
    rw [List.find?_cons] at hfind
    cases hb : a.bind_err with
    | none =>
      rw [hb] at hfind
      simp only [Option.isNone_none, cond_true, Option.some.injEq] at hfind
      subst hfind
      simp [bind_multicast, hn, hr, hb, hc]
    | some e =>
      rw [hb] at hfind
      simp only [Option.isNone_some, cond_false] at hfind
      have := ih c (some e) (fun c' hc' => hclean c' (List.mem_cons_of_mem a hc')) hfind
      simp [bind_multicast, hn, hr, hb, this]

/-- Claim C9: bind_multicast returns the socket of the first candidate whose
bind succeeds (provided creation/reuse/conversion succeed, which otherwise
propagate their own OS error), so any candidate list containing a bindable
address yields a socket; and the "no viable address" error can only occur
when the candidate list is empty, i.e. only when every candidate failed
(vacuously). -/
theorem bind_multicast_first_bind_or_noViable :
    (∀ (cands : List BindCandidate) (c : BindCandidate),
      (∀ c' ∈ cands, cleanCandidate c') →
      cands.find? (fun c' => c'.bind_err.isNone) = some c →
      bind_multicast cands none = .ok c.socket) ∧
    (∀ (cands : List BindCandidate),
      bind_multicast cands none = .error .noViable →
      cands = [] ∧ ∀ c ∈ cands, ¬ c.bind_err = none) :=
  ⟨fun cands c hclean hfind => bind_multicast_first_success cands c none hclean hfind,
   fun cands h => by
    obtain ⟨hnil, -⟩ := bind_multicast_noViable_of cands none h
    exact ⟨hnil, by subst hnil; intro c hc; simp at hc⟩⟩

/-- Witness for C9: a first candidate that fails to bind followed by one
that binds; the second one's socket is returned. -/
theorem bind_multicast_first_bind_or_noViable_witness :
    bind_multicast [⟨true, none, none, some 13, none, 7⟩,
        ⟨true, none, none, none, none, 8⟩] none =
      .ok (⟨true, none, none, none, none, 8⟩ : BindCandidate).socket ∧
    ([] : List BindCandidate) = [] :=
  ⟨bind_multicast_first_bind_or_noViable.1
      [⟨true, none, none, some 13, none, 7⟩, ⟨true, none, none, none, none, 8⟩]
      ⟨true, none, none, none, none, 8⟩ (by simp [cleanCandidate]) (by decide),
   (bind_multicast_first_bind_or_noViable.2 [] rfl).1⟩

/- ======== Visualization tracker (sslgame/src/visualization_tracker.rs) ======== -/

/-- proto VisualizationSet: an optional source tag and its visualizations. -/
structure VisSet where
  source : Option Nat
  visualization : List Visualization
deriving DecidableEq

/-- proto VisualizationUpdate: group coordinates plus the sharded sets. -/
structure VisualizationUpdate where
  visualization_group : Option VisGroup
  visualization_set : List VisSet
deriving DecidableEq

/-- visualization_tracker.rs::remap_visualizations: the vision-to-bevy remap
over every contained visualization. -/
def remap_visualizations (u : VisualizationUpdate) : VisualizationUpdate :=
  { u with visualization_set := u.visualization_set.map (fun st =>
      { st with visualization := remapVisualizationList st.visualization }) }

/-- VisualizationTracker: retained update history, newest first. -/
structure VisualizationTracker where
  history : List VisualizationUpdate
deriving DecidableEq

/-- The truncation scan of push_update: walk the history front to back,
collecting the groups of entries whose group_count matches the current
epoch; stop (exclusive) at an entry of a different epoch, or (inclusive)
once every group of the epoch was seen. Returns the truncation index. -/
def trunc_scan (cnt : Nat) : Finset Nat → Nat → List VisualizationUpdate → Option Nat
  | _, _, [] => none
  | seen, i, u :: rest =>
    match u.visualization_group with
    | some g =>
      if g.group_count == cnt then
        let seen2 := insert g.group seen
        if cnt ≤ seen2.card then some (i + 1) else trunc_scan cnt seen2 (i + 1) rest
      else some i
    | none => if cnt ≤ seen.card then some (i + 1) else trunc_scan cnt seen (i + 1) rest

/-- VisualizationTracker::push_update: remap, prepend, then truncate the
history as soon as the current epoch is complete, discarding entries of a
stale group_count. -/
def VisualizationTracker.push_update (t : VisualizationTracker)
    (new_update : VisualizationUpdate) : VisualizationTracker :=
  let u := remap_visualizations new_update
  let new_group_count := (u.visualization_group.map (fun g => g.group_count)).getD 1
  let h := u :: t.history
  match trunc_scan new_group_count ∅ 0 h with
  | some idx => ⟨h.take idx⟩
  | none => ⟨h⟩

/-- An association map from group to the set of already collected sources
(the HashMap group_sources of visualization_updates). -/
def lookupGroup (g : Nat) (m : List (Nat × Finset Nat)) : Option (Finset Nat) :=
  (m.find? (fun p => p.1 == g)).map (fun p => p.2)

/-- Store a group's source set in the association map. -/
def setGroup (g : Nat) (v : Finset Nat) : List (Nat × Finset Nat) → List (Nat × Finset Nat)
  | [] => [(g, v)]
  | p :: rest => if p.1 == g then (g, v) :: rest else p :: setGroup g v rest

/-- The inner loop over one update's visualization sets: skip a set whose
source was already collected for this group, otherwise record the source (if
any) and emit the set's visualizations. -/
def vis_collect_sets (seen : Finset Nat) : List VisSet → Finset Nat × List Visualization
  | [] => (seen, [])
  | vs :: rest =>
    match vs.source with
    | some src =>
      if src ∈ seen then vis_collect_sets seen rest
      else
        let r := vis_collect_sets (insert src seen) rest
        (r.1, vs.visualization ++ r.2)
    | none =>
      let r := vis_collect_sets seen rest
      (r.1, vs.visualization ++ r.2)

/-- The outer loop of visualization_updates: for each retained update take
its group (the unwrap panics on a group-less entry, modelled as none), fetch
the group's collected-source set, run the inner loop, store the updated set
and concatenate the emitted visualizations. -/
def vis_updates_go (gs : List (Nat × Finset Nat)) :
    List VisualizationUpdate → Option (List (Nat × Finset Nat) × List Visualization)
  | [] => some (gs, [])
  | u :: rest =>
    match u.visualization_group with
    | none => none
    | some g =>
      let seen := (lookupGroup g.group gs).getD ∅
      let r := vis_collect_sets seen u.visualization_set
      match vis_updates_go (setGroup g.group r.1 gs) rest with
      | none => none
      | some (gs2, out2) => some (gs2, r.2 ++ out2)

/-- VisualizationTracker::visualization_updates: on an empty history return
the default triple; otherwise collect a last-writer-wins merge per
(group, source) pair over the whole history, report the newest entry's
group_count and the touched groups, and clear the history. -/
def VisualizationTracker.visualization_updates (t : VisualizationTracker) :
    Option ((Nat × Finset Nat × List Visualization) × VisualizationTracker) :=
  match t.history with
  | [] => some ((0, ∅, []), t)
  | u0 :: _ =>
    let group_count := (u0.visualization_group.map (fun g => g.group_count)).getD 1
    match vis_updates_go [] t.history with
    | some (gs, vis) =>
      some ((group_count, (gs.map (fun p => p.1)).toFinset, vis), ⟨[]⟩)
    | none => none

/- ======== Specification-side view of the merge (for the C6 statement) ======== -/

/-- The (group, set) occurrences of a history in traversal (newest-first)
order. -/
def occ_list (h : List VisualizationUpdate) : List (Nat × VisSet) :=
  h.flatMap (fun u =>
    match u.visualization_group with
    | some g => u.visualization_set.map (fun vs => (g.group, vs))
    | none => [])

/-- The deduplication key of an occurrence: its (group, source) pair, when a
source is present. -/
def key_of (p : Nat × VisSet) : Option (Nat × Nat) :=
  p.2.source.map (fun s => (p.1, s))

/-- Keep the first occurrence of every (group, source) key (and every
source-less occurrence), also returning the final key set. -/
def dedup_first_go (seen : List (Nat × Nat)) :
    List (Nat × VisSet) → List (Nat × VisSet) × List (Nat × Nat)
  | [] => ([], seen)
  | p :: rest =>
    match key_of p with
    | some k =>
      if k ∈ seen then dedup_first_go seen rest
      else
        let r := dedup_first_go (k :: seen) rest
        (p :: r.1, r.2)
    | none =>
      let r := dedup_first_go seen rest
      (p :: r.1, r.2)

/-- First-occurrence filter of a (group, set) occurrence list. -/
def dedup_first (l : List (Nat × VisSet)) : List (Nat × VisSet) :=
  (dedup_first_go [] l).1

theorem dedup_first_go_append :
    ∀ (xs ys : List (Nat × VisSet)) (seen : List (Nat × Nat)),
      dedup_first_go seen (xs ++ ys) =
        ((dedup_first_go seen xs).1 ++
            (dedup_first_go (dedup_first_go seen xs).2 ys).1,
          (dedup_first_go (dedup_first_go seen xs).2 ys).2) := by
  intro xs
  induction xs with
  | nil => intro ys seen; simp [dedup_first_go]
  | cons q rest ih =>
    intro ys seen
    cases hkq : key_of q with
    | some kq =>
      by_cases hin : kq ∈ seen
      · simp only [List.cons_append, dedup_first_go, hkq, if_pos hin]
        exact ih ys seen
      · simp only [List.cons_append, dedup_first_go, hkq, if_neg hin, List.append_eq]
        rw [ih ys (kq :: seen)]
    | none =>
      simp only [List.cons_append, dedup_first_go, hkq, List.append_eq]
      rw [ih ys seen]

theorem dedup_first_go_out_keys_not_seen :
    ∀ (l : List (Nat × VisSet)) (seen : List (Nat × Nat)) (p : Nat × VisSet),
      p ∈ (dedup_first_go seen l).1 → ∀ k, key_of p = some k → k ∉ seen := by
  intro l
  induction l with
  | nil => intro seen p hp; simp [dedup_first_go] at hp
  | cons q rest ih =>
    intro seen p hp k hk
    cases hkq : key_of q with
    | some kq =>
      by_cases hin : kq ∈ seen
      · simp only [dedup_first_go, hkq, if_pos hin] at hp
        exact ih seen p hp k hk
      · simp only [dedup_first_go, hkq, if_neg hin] at hp
        rcases List.mem_cons.mp hp with rfl | hp
        · rw [hkq, Option.some.injEq] at hk
          subst hk; exact hin
        · have := ih (kq :: seen) p hp k hk
          intro habs
          exact this (List.mem_cons_of_mem kq habs)
    | none =>
      simp only [dedup_first_go, hkq] at hp
      rcases List.mem_cons.mp hp with rfl | hp
      · rw [hkq] at hk; exact Option.noConfusion hk
      · exact ih seen p hp k hk

theorem dedup_first_go_countP_of_seen (k : Nat × Nat) :
    ∀ (l : List (Nat × VisSet)) (seen : List (Nat × Nat)), k ∈ seen →
      ((dedup_first_go seen l).1.countP (fun p => key_of p == some k)) = 0 := by
  intro l
  induction l with
  | nil => intro seen _; simp [dedup_first_go]
  | cons q rest ih =>
    intro seen hk
    cases hkq : key_of q with
    | some kq =>
      by_cases hin : kq ∈ seen
      · simp only [dedup_first_go, hkq, if_pos hin]
        exact ih seen hk
      · have hne : kq ≠ k := fun habs => hin (habs ▸ hk)
        simp only [dedup_first_go, hkq, if_neg hin, List.countP_cons]
        rw [ih (kq :: seen) (List.mem_cons_of_mem kq hk)]
        simp [hne]
    | none =>
      simp only [dedup_first_go, hkq, List.countP_cons]
      rw [ih seen hk]
      simp

theorem dedup_first_go_countP_of_not_seen (k : Nat × Nat) :
    ∀ (l : List (Nat × VisSet)) (seen : List (Nat × Nat)), k ∉ seen →
      ((dedup_first_go seen l).1.countP (fun p => key_of p == some k)) =
        if l.any (fun p => key_of p == some k) then 1 else 0 := by
  intro l
  induction l with
  | nil => intro seen _; simp [dedup_first_go]
  | cons q rest ih =>
    intro seen hk
    cases hkq : key_of q with
    | some kq =>
      by_cases hin : kq ∈ seen
      · have hne : kq ≠ k := fun habs => hk (habs ▸ hin)
        simp only [dedup_first_go, hkq, if_pos hin, List.any_cons]
        rw [ih seen hk]
        have hb : ((some kq : Option (Nat × Nat)) == some k) = false := by simp [hne]
        rw [hb, Bool.false_or]
      · simp only [dedup_first_go, hkq, if_neg hin, List.any_cons, List.countP_cons]
        by_cases heq : kq = k
        · subst heq
          rw [dedup_first_go_countP_of_seen kq rest (kq :: seen)
            (List.mem_cons_self kq seen)]
          simp
        · rw [ih (kq :: seen) (by
            intro habs
            rcases List.mem_cons.mp habs with h | h
            · exact heq h.symm
            · exact hk h)]
          have hb : ((some kq : Option (Nat × Nat)) == some k) = false := by simp [heq]
          rw [hb, Bool.false_or]
          simp
    | none =>
      simp only [dedup_first_go, hkq, List.any_cons, List.countP_cons]
      rw [ih seen hk]
      have hb : ((none : Option (Nat × Nat)) == some k) = false := rfl
      rw [hb, Bool.false_or]
      simp

theorem dedup_first_go_find? :
    ∀ (l : List (Nat × VisSet)) (seen : List (Nat × Nat)) (p : Nat × VisSet)
      (k : Nat × Nat),
      p ∈ (dedup_first_go seen l).1 → key_of p = some k →
      l.find? (fun q => key_of q == some k) = some p := by
  intro l
  induction l with
  | nil => intro seen p k hp; simp [dedup_first_go] at hp
  | cons q rest ih =>
    intro seen p k hp hk
    cases hkq : key_of q with
    | some kq =>
      by_cases hin : kq ∈ seen
      · simp only [dedup_first_go, hkq, if_pos hin] at hp
        have hknot : k ∉ seen := dedup_first_go_out_keys_not_seen rest seen p hp k hk
        have hne : kq ≠ k := fun habs => hknot (habs ▸ hin)
        have hc : (key_of q == some k) = false := by simp [hkq, hne]
        rw [List.find?_cons_of_neg _ (by simp [hc])]
        exact ih seen p k hp hk
      · simp only [dedup_first_go, hkq, if_neg hin] at hp
        rcases List.mem_cons.mp hp with rfl | hp
        · rw [hkq, Option.some.injEq] at hk
          subst hk
          exact List.find?_cons_of_pos _ (by simp [hkq])
        · have hknot : k ∉ kq :: seen :=
            dedup_first_go_out_keys_not_seen rest (kq :: seen) p hp k hk
          have hne : kq ≠ k := fun habs =>
            hknot (habs ▸ List.mem_cons_self kq seen)
          have hc : (key_of q == some k) = false := by simp [hkq, hne]
          rw [List.find?_cons_of_neg _ (by simp [hc])]
          exact ih (kq :: seen) p k hp hk
    | none =>
      simp only [dedup_first_go, hkq] at hp
      rcases List.mem_cons.mp hp with rfl | hp
      · rw [hkq] at hk; exact Option.noConfusion hk
      · have hc : (key_of q == some k) = false := by simp [hkq]
        rw [List.find?_cons_of_neg _ (by simp [hc])]
        exact ih seen p k hp hk

theorem lookupGroup_setGroup_self (g : Nat) (v : Finset Nat) :
    ∀ m, lookupGroup g (setGroup g v m) = some v := by
  intro m
  induction m with
  | nil => simp [setGroup, lookupGroup]
  | cons p rest ih =>
    by_cases hp : p.1 = g
    · simp [setGroup, lookupGroup, hp]
    · have hb : ¬ (p.1 == g) = true := by simp [hp]
      simp only [setGroup, if_neg hb]
      simp only [lookupGroup] at ih ⊢
      rw [List.find?_cons_of_neg _ (by simp [hp])]
      exact ih

theorem lookupGroup_setGroup_other (g g' : Nat) (v : Finset Nat) (hne : g' ≠ g) :
    ∀ m, lookupGroup g' (setGroup g v m) = lookupGroup g' m := by
  intro m
  induction m with
  | nil =>
    simp only [setGroup, lookupGroup]
    rw [List.find?_cons_of_neg _ (by simp [Ne.symm hne])]
  | cons p rest ih =>
    by_cases hp : p.1 = g
    · have hb : (p.1 == g) = true := by simp [hp]
      simp only [setGroup, if_pos hb, lookupGroup]
      rw [List.find?_cons_of_neg _ (by simp [Ne.symm hne]),
        List.find?_cons_of_neg _ (by simp [hp, Ne.symm hne])]
    · have hb : ¬ (p.1 == g) = true := by simp [hp]
      simp only [setGroup, if_neg hb]
      by_cases hq : p.1 = g'
      · simp only [lookupGroup]
        rw [List.find?_cons_of_pos _ (by simp [hq]),
          List.find?_cons_of_pos _ (by simp [hq])]
      · simp only [lookupGroup] at ih ⊢
        rw [List.find?_cons_of_neg _ (by simp [hq]),
          List.find?_cons_of_neg _ (by simp [hq])]
        exact ih

theorem vis_collect_sets_correspondence (g : Nat) :
    ∀ (sets : List VisSet) (seenF : Finset Nat) (seenK : List (Nat × Nat)),
      (∀ src, (g, src) ∈ seenK ↔ src ∈ seenF) →
      (vis_collect_sets seenF sets).2 =
        ((dedup_first_go seenK (sets.map (fun vs => (g, vs)))).1).flatMap
          (fun p => p.2.visualization) ∧
      (∀ src, (g, src) ∈ (dedup_first_go seenK (sets.map (fun vs => (g, vs)))).2 ↔
        src ∈ (vis_collect_sets seenF sets).1) ∧
      (∀ g' src, g' ≠ g →
        ((g', src) ∈ (dedup_first_go seenK (sets.map (fun vs => (g, vs)))).2 ↔
          (g', src) ∈ seenK)) := by
  intro sets
  induction sets with
  | nil =>
    intro seenF seenK halign
    refine ⟨rfl, ?_, ?_⟩
    · intro src; exact halign src
    · intro g' src _; exact Iff.rfl
  | cons vs rest ih =>
    intro seenF seenK halign
    cases hsrc : vs.source with
    | some src =>
      have hkey : key_of (g, vs) = some (g, src) := by simp [key_of, hsrc]
      by_cases hin : src ∈ seenF
      · have hkin : (g, src) ∈ seenK := (halign src).mpr hin
        have hcout : vis_collect_sets seenF (vs :: rest) =
            vis_collect_sets seenF rest := by
          simp [vis_collect_sets, hsrc, hin]
        have hdout : dedup_first_go seenK ((vs :: rest).map (fun vs => (g, vs))) =
            dedup_first_go seenK (rest.map (fun vs => (g, vs))) := by
          simp only [List.map_cons, dedup_first_go, hkey, if_pos hkin]
        rw [hcout, hdout]
        exact ih seenF seenK halign
      · have hkin : (g, src) ∉ seenK := fun h => hin ((halign src).mp h)
        have halign2 : ∀ s, (g, s) ∈ (g, src) :: seenK ↔ s ∈ insert src seenF := by
          intro s
          rw [List.mem_cons, Finset.mem_insert]
          constructor
          · rintro (h | h)
            · left; exact (Prod.mk.injEq _ _ _ _ ▸ h).2
            · right; exact (halign s).mp h
          · rintro (rfl | h)
            · left; rfl
            · right; exact (halign s).mpr h
        obtain ⟨ih1, ih2, ih3⟩ := ih (insert src seenF) ((g, src) :: seenK) halign2
        have hcout : vis_collect_sets seenF (vs :: rest) =
            ((vis_collect_sets (insert src seenF) rest).1,
              vs.visualization ++ (vis_collect_sets (insert src seenF) rest).2) := by
          simp [vis_collect_sets, hsrc, hin]
        have hdout : dedup_first_go seenK ((vs :: rest).map (fun vs => (g, vs))) =
            ((g, vs) :: (dedup_first_go ((g, src) :: seenK)
                (rest.map (fun vs => (g, vs)))).1,
              (dedup_first_go ((g, src) :: seenK)
                (rest.map (fun vs => (g, vs)))).2) := by
          simp only [List.map_cons, dedup_first_go, hkey, if_neg hkin]
        rw [hcout, hdout]
        refine ⟨?_, ?_, ?_⟩
        · simp only [List.flatMap_cons]
          rw [ih1]
        · intro s
          exact ih2 s
        · intro g' s hne
          rw [ih3 g' s hne, List.mem_cons]
          constructor
          · rintro (h | h)
            · exact absurd (Prod.mk.injEq _ _ _ _ ▸ h).1 hne
            · exact h
          · intro h; right; exact h
    | none =>
      have hkey : key_of (g, vs) = none := by simp [key_of, hsrc]
      obtain ⟨ih1, ih2, ih3⟩ := ih seenF seenK halign
      have hcout : vis_collect_sets seenF (vs :: rest) =
          ((vis_collect_sets seenF rest).1,
            vs.visualization ++ (vis_collect_sets seenF rest).2) := by
        simp [vis_collect_sets, hsrc]
      have hdout : dedup_first_go seenK ((vs :: rest).map (fun vs => (g, vs))) =
          ((g, vs) :: (dedup_first_go seenK (rest.map (fun vs => (g, vs)))).1,
            (dedup_first_go seenK (rest.map (fun vs => (g, vs)))).2) := by
        simp only [List.map_cons, dedup_first_go, hkey]
      rw [hcout, hdout]
      refine ⟨?_, fun s => ih2 s, fun g' s hne => ih3 g' s hne⟩
      simp only [List.flatMap_cons]
      rw [ih1]

theorem occ_list_cons_some (u : VisualizationUpdate) (g : VisGroup)
    (rest : List VisualizationUpdate) (hg : u.visualization_group = some g) :
    occ_list (u :: rest) =
      u.visualization_set.map (fun vs => (g.group, vs)) ++ occ_list rest := by
  simp only [occ_list, List.flatMap_cons, hg]

theorem vis_updates_go_correspondence :
    ∀ (h : List VisualizationUpdate) (gs : List (Nat × Finset Nat))
      (seenK : List (Nat × Nat)),
      (∀ u ∈ h, u.visualization_group.isSome) →
      (∀ g src, (g, src) ∈ seenK ↔
        ∃ f, lookupGroup g gs = some f ∧ src ∈ f) →
      ∃ gs2, vis_updates_go gs h =
        some (gs2, ((dedup_first_go seenK (occ_list h)).1).flatMap
          (fun p => p.2.visualization)) := by
  intro h
  induction h with
  | nil =>
    intro gs seenK _ _
    exact ⟨gs, by simp [vis_updates_go, occ_list, dedup_first_go]⟩
  | cons u rest ih =>
    intro gs seenK hall hinv
    have hg : ∃ g, u.visualization_group = some g := by
      have := hall u (List.mem_cons_self u rest)
      cases hgu : u.visualization_group with
      | none => rw [hgu] at this; simp at this
      | some g => exact ⟨g, rfl⟩
    obtain ⟨g, hg⟩ := hg
    have halign : ∀ src, (g.group, src) ∈ seenK ↔
        src ∈ (lookupGroup g.group gs).getD ∅ := by
      intro src
      rw [hinv g.group src]
      cases hl : lookupGroup g.group gs with
      | none => simp
      | some f => simp
    obtain ⟨ih1, ih2, ih3⟩ := vis_collect_sets_correspondence g.group
      u.visualization_set ((lookupGroup g.group gs).getD ∅) seenK halign
    set seg : List (Nat × VisSet) :=
      u.visualization_set.map (fun vs => (g.group, vs)) with hseg
    set r := vis_collect_sets ((lookupGroup g.group gs).getD ∅)
      u.visualization_set with hr
    set r2 := dedup_first_go seenK seg with hr2
    have hinv2 : ∀ g' src, (g', src) ∈ r2.2 ↔
        ∃ f, lookupGroup g' (setGroup g.group r.1 gs) = some f ∧ src ∈ f := by
      intro g' src
      by_cases hgg : g' = g.group
      · subst hgg
        rw [ih2 src, lookupGroup_setGroup_self (g.group) r.1 gs]
        simp
      · rw [ih3 g' src hgg, hinv g' src,
          lookupGroup_setGroup_other g.group g' r.1 hgg gs]
    obtain ⟨gs2, hrec⟩ := ih (setGroup g.group r.1 gs) r2.2
      (fun u' hu' => hall u' (List.mem_cons_of_mem u hu')) hinv2
    refine ⟨gs2, ?_⟩
    simp only [vis_updates_go, hg]
    rw [← hr, hrec]
    simp only [Option.some.injEq, Prod.mk.injEq, true_and]
    rw [occ_list_cons_some u g rest hg, ← hseg, dedup_first_go_append seg
      (occ_list rest) seenK, ← hr2]
    simp only [List.flatMap_append]
    rw [ih1]

theorem trunc_scan_ge :
    ∀ (l : List VisualizationUpdate) (cnt : Nat) (seen : Finset Nat) (i j : Nat),
      trunc_scan cnt seen i l = some j → i ≤ j := by
  intro l
  induction l with
  | nil => intro cnt seen i j h; simp [trunc_scan] at h
  | cons u rest ih =>
    intro cnt seen i j h
    cases hg : u.visualization_group with
    | some g =>
      simp only [trunc_scan, hg] at h
      by_cases hcond : (g.group_count == cnt) = true
      · rw [if_pos hcond] at h
        by_cases hcard : cnt ≤ (insert g.group seen).card
        · rw [if_pos hcard] at h
          obtain rfl : i + 1 = j := Option.some.injEq _ _ ▸ h
          omega
        · rw [if_neg hcard] at h
          have := ih cnt (insert g.group seen) (i + 1) j h
          omega
      · rw [if_neg hcond] at h
        obtain rfl : i = j := Option.some.injEq _ _ ▸ h
        omega
    | none =>
      simp only [trunc_scan, hg] at h
      by_cases hcard : cnt ≤ seen.card
      · rw [if_pos hcard] at h
        obtain rfl : i + 1 = j := Option.some.injEq _ _ ▸ h
        omega
      · rw [if_neg hcard] at h
        have := ih cnt seen (i + 1) j h
        omega

theorem remap_visualizations_group (u : VisualizationUpdate) :
    (remap_visualizations u).visualization_group = u.visualization_group := rfl

theorem push_update_history_cons (t : VisualizationTracker) (u : VisualizationUpdate) :
    ∃ rest, (t.push_update u).history = remap_visualizations u :: rest ∧
      ∀ x ∈ rest, x ∈ t.history := by
  have hfirst : ∀ idx, trunc_scan
      (((remap_visualizations u).visualization_group.map
        (fun g => g.group_count)).getD 1) ∅ 0
      (remap_visualizations u :: t.history) = some idx → 1 ≤ idx := by
    intro idx h
    cases hgu : (remap_visualizations u).visualization_group with
    | some g =>
      rw [hgu] at h
      simp only [trunc_scan, hgu, Option.map_some', Option.getD_some, beq_self_eq_true,
        if_pos] at h
      by_cases hcard : g.group_count ≤ (insert g.group (∅ : Finset Nat)).card
      · rw [if_pos hcard] at h
        obtain rfl : 0 + 1 = idx := Option.some.injEq _ _ ▸ h
        omega
      · rw [if_neg hcard] at h
        exact trunc_scan_ge t.history _ _ 1 idx h
    | none =>
      rw [hgu] at h
      simp only [trunc_scan, hgu, Option.map_none', Option.getD_none] at h
      have hcard : ¬ (1 ≤ (∅ : Finset Nat).card) := by simp
      rw [if_neg hcard] at h
      exact trunc_scan_ge t.history _ _ 1 idx h
  simp only [VisualizationTracker.push_update]
  cases hscan : trunc_scan
      (((remap_visualizations u).visualization_group.map
        (fun g => g.group_count)).getD 1) ∅ 0
      (remap_visualizations u :: t.history) with
  | none => exact ⟨t.history, rfl, fun x h => h⟩
  | some idx =>
    have h1 : 1 ≤ idx := hfirst idx hscan
    refine ⟨t.history.take (idx - 1), ?_, fun x h => List.take_subset _ _ h⟩
    have htake : List.take idx (remap_visualizations u :: t.history) =
        remap_visualizations u :: t.history.take (idx - 1) := by
      obtain ⟨m, rfl⟩ : ∃ m, idx = m + 1 := ⟨idx - 1, by omega⟩
      simp [List.take_succ_cons]
    show List.take idx (remap_visualizations u :: t.history) =
      remap_visualizations u :: t.history.take (idx - 1)
    exact htake

theorem push_update_mem (t : VisualizationTracker) (u : VisualizationUpdate) :
    ∀ x ∈ (t.push_update u).history,
      x = remap_visualizations u ∨ x ∈ t.history := by
  obtain ⟨rest, heq, hsub⟩ := push_update_history_cons t u
  intro x hx
  rw [heq] at hx
  rcases List.mem_cons.mp hx with rfl | hx
  · exact Or.inl rfl
  · exact Or.inr (hsub x hx)

theorem foldl_push_group_inv (c : Nat) :
    ∀ (us : List VisualizationUpdate) (t0 : VisualizationTracker),
      (∀ u ∈ us, ∃ gi, u.visualization_group = some ⟨gi, c⟩) →
      (∀ x ∈ t0.history, ∃ gi, x.visualization_group = some ⟨gi, c⟩) →
      ∀ x ∈ (us.foldl VisualizationTracker.push_update t0).history,
        ∃ gi, x.visualization_group = some ⟨gi, c⟩ := by
  intro us
  induction us with
  | nil => intro t0 _ h0; simpa using h0
  | cons u rest ih =>
    intro t0 hus h0
    simp only [List.foldl_cons]
    apply ih
    · exact fun u' hu' => hus u' (List.mem_cons_of_mem u hu')
    · intro x hx
      rcases push_update_mem t0 u x hx with rfl | hx
      · obtain ⟨gi, hgi⟩ := hus u (List.mem_cons_self u rest)
        exact ⟨gi, by rw [remap_visualizations_group]; exact hgi⟩
      · exact h0 x hx

theorem visualization_updates_cons_eq (t : VisualizationTracker)
    (u0 : VisualizationUpdate) (rest : List VisualizationUpdate)
    (hh : t.history = u0 :: rest) (gs : List (Nat × Finset Nat))
    (vis : List Visualization) (hgo : vis_updates_go [] t.history = some (gs, vis)) :
    t.visualization_updates =
      some (((u0.visualization_group.map (fun g => g.group_count)).getD 1,
        (gs.map (fun p => p.1)).toFinset, vis), ⟨[]⟩) := by
  rw [hh] at hgo
  simp only [VisualizationTracker.visualization_updates, hh, hgo]

/-- Claim C6: once pushUpdate has seen every group of the current
group_count epoch (groups of every pushed update share the epoch c and cover
0..c-1, in any arrival order), visualization_updates reports the epoch's
group_count, returns the last-writer-wins merge of the retained history (its
output is the concatenation of the first - i.e. most recent - occurrence of
every (group, source) pair, each occurring pair kept exactly once), and
clears the internal history. -/
theorem visualization_updates_epoch_merge :
    ∀ (us : List VisualizationUpdate) (c : Nat) (t : VisualizationTracker),
      0 < c → us ≠ [] →
      (∀ u ∈ us, ∃ gi, u.visualization_group = some ⟨gi, c⟩) →
      (∀ gi, gi < c → ∃ u ∈ us, u.visualization_group = some ⟨gi, c⟩) →
      t = us.foldl VisualizationTracker.push_update ⟨[]⟩ →
      ∃ gset vis,
        t.visualization_updates = some ((c, gset, vis), ⟨[]⟩) ∧
        vis = (dedup_first (occ_list t.history)).flatMap
          (fun p => p.2.visualization) ∧
        (∀ k, (occ_list t.history).any (fun p => key_of p == some k) = true →
          ((dedup_first (occ_list t.history)).countP
            (fun p => key_of p == some k)) = 1) ∧
        (∀ p ∈ dedup_first (occ_list t.history), ∀ k, key_of p = some k →
          (occ_list t.history).find? (fun q => key_of q == some k) = some p) := by
  intro us c t hc hne hgroups hcover hteq
  rcases List.eq_nil_or_concat us with rfl | ⟨L, b, rfl⟩
  · exact absurd rfl hne
  have hfold : t = (L.foldl VisualizationTracker.push_update ⟨[]⟩).push_update b := by
    rw [hteq]; simp
  obtain ⟨rest, hhist, -⟩ :=
    push_update_history_cons (L.foldl VisualizationTracker.push_update ⟨[]⟩) b
  have hthist : t.history = remap_visualizations b :: rest := by
    rw [hfold]; exact hhist
  have hmem : ∀ x ∈ t.history, ∃ gi, x.visualization_group = some ⟨gi, c⟩ := by
    rw [hteq]
    exact foldl_push_group_inv c (L.concat b) ⟨[]⟩ hgroups (by simp)
  obtain ⟨gb, hgb⟩ := hgroups b (by simp [List.concat_eq_append])
  have hheadgrp : (remap_visualizations b).visualization_group = some ⟨gb, c⟩ := by
    rw [remap_visualizations_group]; exact hgb
  have hallsome : ∀ u ∈ t.history, u.visualization_group.isSome := by
    intro u hu
    obtain ⟨gi, hgi⟩ := hmem u hu
    simp [hgi]
  obtain ⟨gs2, hgo⟩ := vis_updates_go_correspondence t.history [] []
    hallsome (by intro g src; simp [lookupGroup])
  refine ⟨(gs2.map (fun p => p.1)).toFinset,
    (dedup_first (occ_list t.history)).flatMap (fun p => p.2.visualization),
    ?_, rfl, ?_, ?_⟩
  · have := visualization_updates_cons_eq t (remap_visualizations b) rest hthist
      gs2 _ (by rw [hgo])
    rw [this]
    simp only [hheadgrp, Option.map_some', Option.getD_some, dedup_first]
  · intro k hk
    rw [dedup_first, dedup_first_go_countP_of_not_seen k (occ_list t.history) []
      (by simp), if_pos hk]
  · intro p hp k hk
    rw [dedup_first] at hp
    exact dedup_first_go_find? (occ_list t.history) [] p k hp hk

/-- Shard for group 0 of a group_count-2 epoch, tagged source 7. -/
def visExU0 : VisualizationUpdate := ⟨some ⟨0, 2⟩, [⟨some 7, []⟩]⟩

/-- Shard for group 1 of a group_count-2 epoch, tagged source 7. -/
def visExU1 : VisualizationUpdate := ⟨some ⟨1, 2⟩, [⟨some 7, []⟩]⟩

/-- The tracker after pushing both shards of the epoch. -/
def visTrackerExample : VisualizationTracker :=
  [visExU0, visExU1].foldl VisualizationTracker.push_update ⟨[]⟩

/-- Witness for C6: a complete group_count-2 epoch pushed in order 0, 1. -/
theorem visualization_updates_epoch_merge_witness :
    ∃ gset vis,
      visTrackerExample.visualization_updates = some ((2, gset, vis), ⟨[]⟩) ∧
      vis = (dedup_first (occ_list visTrackerExample.history)).flatMap
        (fun p => p.2.visualization) ∧
      (∀ k, (occ_list visTrackerExample.history).any
          (fun p => key_of p == some k) = true →
        ((dedup_first (occ_list visTrackerExample.history)).countP
          (fun p => key_of p == some k)) = 1) ∧
      (∀ p ∈ dedup_first (occ_list visTrackerExample.history), ∀ k,
        key_of p = some k →
        (occ_list visTrackerExample.history).find?
          (fun q => key_of q == some k) = some p) :=
  visualization_updates_epoch_merge [visExU0, visExU1] 2 visTrackerExample
    (by decide) (by decide)
    (by
      intro u hu
      rcases List.mem_cons.mp hu with rfl | hu
      · exact ⟨0, rfl⟩
      · rcases List.mem_cons.mp hu with rfl | hu
        · exact ⟨1, rfl⟩
        · cases hu)
    (by
      intro gi hgi
      interval_cases gi
      · exact ⟨visExU0, by simp, rfl⟩
      · exact ⟨visExU1, by simp, rfl⟩)
    rfl
